import Mathlib

/-!
Package `epoch` (savaki/datetime): seconds since the Unix epoch.

A shallow embedding of `seconds.go` together with the parts of the Go
standard library it calls (`strconv.FormatInt`, `strconv.ParseInt`,
`encoding/json` for an `int64` destination, `time.Unix`, `Time.In`,
`Time.Unix`), followed by theorems about the embedded functions.

Conventions.
* A Go `int64` is a Lean `Int` inside `[-2^63, 2^63 - 1]` (`IsInt64`);
  arithmetic that may overflow is wrapped explicitly with `wrapInt64`.
* A Go `uint64` is a Lean `Nat` below `2^64`, wrapped with `% 2^64`.
* A Go `string` or `[]byte` is a list of bytes, a byte being a `Fin 256`.
* A Go function returning `(value, error)` returns a pair whose second part
  is an `Option`; a method with a pointer receiver takes the old receiver
  and returns the new one together with the error.
-/

namespace Epoch

/-! ## Machine integers and bytes -/

abbrev Byte := Fin 256

abbrev Bytes := List Byte

/-- The bytes of an ASCII string literal. -/
def ascii (s : String) : Bytes := s.toList.map (fun ch => Fin.ofNat ch.toNat)

def minInt64 : Int := -9223372036854775808

def maxInt64 : Int := 9223372036854775807

def maxUint64 : Nat := 18446744073709551615

/-- The values a Go `int64` can hold. -/
def IsInt64 (v : Int) : Prop := minInt64 ≤ v ∧ v ≤ maxInt64

instance (v : Int) : Decidable (IsInt64 v) := by unfold IsInt64; infer_instance

/-- Two's-complement wrap-around of a mathematical integer into `int64`. -/
def wrapInt64 (x : Int) : Int := (x + 9223372036854775808) % 18446744073709551616 - 9223372036854775808

/-- The conversion `uint64(x)` of a mathematical integer. -/
def wrapUint64 (x : Int) : Nat := (x % 18446744073709551616).toNat

/-! ## `strconv`: errors -/

/-- The sentinel errors `strconv.ErrSyntax` and `strconv.ErrRange`. -/
inductive StrconvErr where
  | ErrSyntax
  | ErrRange
  deriving DecidableEq, Repr

/-- Go `strconv.NumError`. -/
structure NumError where
  Func : String
  Num : Bytes
  Err : StrconvErr
  deriving DecidableEq, Repr

def syntaxError (fn : String) (str : Bytes) : NumError := ⟨fn, str, StrconvErr.ErrSyntax⟩

def rangeError (fn : String) (str : Bytes) : NumError := ⟨fn, str, StrconvErr.ErrRange⟩

/-! ## `strconv.ParseUint` and `strconv.ParseInt` at base 10, bit size 64 -/

/-- Go `lower(c) = c | ('x' - 'X')`. -/
def lower (c : Byte) : Byte := Fin.ofNat (c.val ||| 32)

/-- The digit value the loop of `ParseUint` gives a byte, `none` for the
`default` branch of its switch (base 10, so `_` is not special). -/
def digitVal (c : Byte) : Option Nat :=
  if 48 ≤ c.val ∧ c.val ≤ 57 then some (c.val - 48)
  else if 97 ≤ (lower c).val ∧ (lower c).val ≤ 122 then some ((lower c).val - 97 + 10)
  else none

/-- The smallest number such that `cutoff * 10 > maxUint64`. -/
def cutoff10 : Nat := maxUint64 / 10 + 1

/-- The `for _, c := range []byte(s)` loop of `ParseUint(s, 10, 64)`; `s0` is
the whole argument (for the error value), `n` the accumulator. -/
def parseUintLoop (s0 : Bytes) : Nat → Bytes → Nat × Option NumError
  | n, [] => (n, none)
  | n, c :: cs =>
    match digitVal c with
    | none => (0, some (syntaxError "ParseUint" s0))
    | some d =>
      if d ≥ 10 then (0, some (syntaxError "ParseUint" s0))
      else if n ≥ cutoff10 then (maxUint64, some (rangeError "ParseUint" s0))
      else
        let n10 := (n * 10) % 18446744073709551616
        let n1 := (n10 + d) % 18446744073709551616
        if n1 < n10 ∨ n1 > maxUint64 then (maxUint64, some (rangeError "ParseUint" s0))
        else parseUintLoop s0 n1 cs

/-- Go `strconv.ParseUint(s, 10, 64)`. -/
def ParseUint (s : Bytes) : Nat × Option NumError :=
  if s = [] then (0, some (syntaxError "ParseUint" s))
  else parseUintLoop s 0 s

/-- Go `strconv.ParseInt(s, 10, 64)`. -/
def ParseInt (s : Bytes) : Int × Option NumError :=
  match s with
  | [] => (0, some (syntaxError "ParseInt" s))
  | c :: rest =>
    let s0 := s
    let neg := decide (c = 45)
    let s1 := if c = 43 then rest else if c = 45 then rest else s0
    let r := ParseUint s1
    let un := r.1
    match r.2 with
    | some e =>
      if e.Err ≠ StrconvErr.ErrRange then (0, some { e with Func := "ParseInt", Num := s0 })
      else if !neg && decide (un ≥ 9223372036854775808) then
        (9223372036854775807, some (rangeError "ParseInt" s0))
      else if neg && decide (un > 9223372036854775808) then
        (-9223372036854775808, some (rangeError "ParseInt" s0))
      else (if neg then wrapInt64 (-(wrapInt64 un)) else wrapInt64 un, none)
    | none =>
      if !neg && decide (un ≥ 9223372036854775808) then
        (9223372036854775807, some (rangeError "ParseInt" s0))
      else if neg && decide (un > 9223372036854775808) then
        (-9223372036854775808, some (rangeError "ParseInt" s0))
      else (if neg then wrapInt64 (-(wrapInt64 un)) else wrapInt64 un, none)

/-! ## `strconv.FormatInt` at base 10 -/

/-- Go `smallsString`: the two-digit decimal numbers `00` to `99`. -/
def smallsString : Bytes :=
  ascii ("00010203040506070809" ++
    "10111213141516171819" ++
    "20212223242526272829" ++
    "30313233343536373839" ++
    "40414243444546474849" ++
    "50515253545556575859" ++
    "60616263646566676869" ++
    "70717273747576777879" ++
    "80818283848586878889" ++
    "90919293949596979899")

/-- Indexing `smallsString[i]`. -/
def smalls (i : Nat) : Byte := smallsString.getD i 0

/-- The loop `for us >= 100` of `formatBits`, writing two digits a round in
front of what is already in the buffer (`acc`). Every round divides `us` by
100, so `fuel = us` rounds are more than the loop can take. -/
def formatLoop : Nat → Nat → Bytes → Nat × Bytes
  | 0, us, acc => (us, acc)
  | fuel + 1, us, acc =>
    if us ≥ 100 then
      let is := us % 100 * 2
      formatLoop fuel (us / 100) (smalls is :: smalls (is + 1) :: acc)
    else (us, acc)

/-- Go `formatBits(nil, u, 10, neg, false)` on a 64-bit host: the decimal
digits of `u` (of `-u` when `neg`), behind a minus sign when `neg`. -/
def formatBits (u : Nat) (neg : Bool) : Bytes :=
  let u := if neg then wrapUint64 (-(u : Int)) else u
  let r := formatLoop u u []
  let us := r.1
  let is := us * 2
  let a := smalls (is + 1) :: r.2
  let a := if us ≥ 10 then smalls is :: a else a
  if neg then 45 :: a else a

/-- Go `small(i)` for `0 ≤ i < 100`. -/
def small (i : Nat) : Bytes :=
  if i < 10 then [Fin.ofNat (48 + i)] else [smalls (i * 2), smalls (i * 2 + 1)]

/-- Go `strconv.FormatInt(i, 10)`. -/
def FormatInt (i : Int) : Bytes :=
  if 0 ≤ i ∧ i < 100 then small i.toNat
  else formatBits (wrapUint64 i) (decide (i < 0))

/-! ## `encoding/json`: the scanner (`scanner.go`) -/

/-- The op codes a step function returns. -/
inductive ScanCode where
  | scanContinue
  | scanBeginLiteral
  | scanBeginObject
  | scanObjectKey
  | scanObjectValue
  | scanEndObject
  | scanBeginArray
  | scanArrayValue
  | scanEndArray
  | scanSkipSpace
  | scanEnd
  | scanError
  deriving DecidableEq, Repr

/-- The entries of the scanner's `parseState` stack. -/
inductive ParseState where
  | parseObjectKey
  | parseObjectValue
  | parseArrayValue
  deriving DecidableEq, Repr

/-- The step functions the field `scanner.step` can point to. -/
inductive StepFn where
  | stateBeginValueOrEmpty
  | stateBeginValue
  | stateBeginStringOrEmpty
  | stateBeginString
  | stateEndValue
  | stateEndTop
  | stateInString
  | stateInStringEsc
  | stateInStringEscU
  | stateInStringEscU1
  | stateInStringEscU12
  | stateInStringEscU123
  | stateNeg
  | state1
  | state0
  | stateDot
  | stateDot0
  | stateE
  | stateESign
  | stateE0
  | stateT
  | stateTr
  | stateTru
  | stateF
  | stateFa
  | stateFal
  | stateFals
  | stateN
  | stateNu
  | stateNul
  | stateError
  deriving DecidableEq, Repr

/-- Go `json.SyntaxError`: the message is kept as the offending byte (`none`
at the end of the input) and the context text; `Offset` is the number of
bytes read. -/
structure SyntaxError where
  char : Option Byte
  context : String
  Offset : Nat
  deriving DecidableEq, Repr

/-- Go `json.scanner`. The stack `parseState` has its top at the head of the
list (Go appends at the end of a slice). -/
structure Scanner where
  step : StepFn
  endTop : Bool
  parseState : List ParseState
  err : Option SyntaxError
  bytes : Nat
  deriving DecidableEq, Repr

def maxNestingDepth : Nat := 10000

/-- Go `scanner.reset`. -/
def Scanner.reset (s : Scanner) : Scanner :=
  { s with step := StepFn.stateBeginValue, parseState := [], err := none, endTop := false }

/-- Go `scanner.error`. -/
def Scanner.error (s : Scanner) (c : Byte) (context : String) : Scanner × ScanCode :=
  ({ s with step := StepFn.stateError, err := some ⟨some c, context, s.bytes⟩ }, ScanCode.scanError)

/-- Go `scanner.pushParseState`. -/
def Scanner.pushParseState (s : Scanner) (c : Byte) (newParseState : ParseState)
    (successState : ScanCode) : Scanner × ScanCode :=
  let s := { s with parseState := newParseState :: s.parseState }
  if s.parseState.length ≤ maxNestingDepth then (s, successState)
  else s.error c "exceeded max depth"

/-- Go `scanner.popParseState`. -/
def Scanner.popParseState (s : Scanner) : Scanner :=
  let s := { s with parseState := s.parseState.tail }
  if s.parseState.length = 0 then { s with step := StepFn.stateEndTop, endTop := true }
  else { s with step := StepFn.stateEndValue }

/-- Go `isSpace`. -/
def isSpace (c : Byte) : Bool :=
  decide (c ≤ 32) && (decide (c = 32) || decide (c = 9) || decide (c = 13) || decide (c = 10))

def isDigit (c : Byte) : Bool := decide (48 ≤ c) && decide (c ≤ 57)

def isDigit19 (c : Byte) : Bool := decide (49 ≤ c) && decide (c ≤ 57)

def isHex (c : Byte) : Bool :=
  (decide (48 ≤ c) && decide (c ≤ 57)) || (decide (97 ≤ c) && decide (c ≤ 102)) ||
    (decide (65 ≤ c) && decide (c ≤ 70))

/-- Go `stateEndTop`: a byte that is not a space records the error for the
next call and still returns `scanEnd`. -/
def stateEndTop (s : Scanner) (c : Byte) : Scanner × ScanCode :=
  if !isSpace c then ((s.error c "after top-level value").1, ScanCode.scanEnd)
  else (s, ScanCode.scanEnd)

/-- Go `stateEndValue`. -/
def stateEndValue (s : Scanner) (c : Byte) : Scanner × ScanCode :=
  match s.parseState with
  | [] => stateEndTop { s with step := StepFn.stateEndTop, endTop := true } c
  | ps :: below =>
    if isSpace c then ({ s with step := StepFn.stateEndValue }, ScanCode.scanSkipSpace)
    else
      match ps with
      | ParseState.parseObjectKey =>
        if c = 58 then
          ({ s with parseState := ParseState.parseObjectValue :: below,
                    step := StepFn.stateBeginValue }, ScanCode.scanObjectKey)
        else s.error c "after object key"
      | ParseState.parseObjectValue =>
        if c = 44 then
          ({ s with parseState := ParseState.parseObjectKey :: below,
                    step := StepFn.stateBeginString }, ScanCode.scanObjectValue)
        else if c = 125 then (s.popParseState, ScanCode.scanEndObject)
        else s.error c "after object key:value pair"
      | ParseState.parseArrayValue =>
        if c = 44 then ({ s with step := StepFn.stateBeginValue }, ScanCode.scanArrayValue)
        else if c = 93 then (s.popParseState, ScanCode.scanEndArray)
        else s.error c "after array element"

/-- Go `stateBeginValue`. -/
def stateBeginValue (s : Scanner) (c : Byte) : Scanner × ScanCode :=
  if isSpace c then (s, ScanCode.scanSkipSpace)
  else if c = 123 then
    Scanner.pushParseState { s with step := StepFn.stateBeginStringOrEmpty } c
      ParseState.parseObjectKey ScanCode.scanBeginObject
  else if c = 91 then
    Scanner.pushParseState { s with step := StepFn.stateBeginValueOrEmpty } c
      ParseState.parseArrayValue ScanCode.scanBeginArray
  else if c = 34 then ({ s with step := StepFn.stateInString }, ScanCode.scanBeginLiteral)
  else if c = 45 then ({ s with step := StepFn.stateNeg }, ScanCode.scanBeginLiteral)
  else if c = 48 then ({ s with step := StepFn.state0 }, ScanCode.scanBeginLiteral)
  else if c = 116 then ({ s with step := StepFn.stateT }, ScanCode.scanBeginLiteral)
  else if c = 102 then ({ s with step := StepFn.stateF }, ScanCode.scanBeginLiteral)
  else if c = 110 then ({ s with step := StepFn.stateN }, ScanCode.scanBeginLiteral)
  else if isDigit19 c then ({ s with step := StepFn.state1 }, ScanCode.scanBeginLiteral)
  else s.error c "looking for beginning of value"

/-- Go `stateBeginValueOrEmpty`. -/
def stateBeginValueOrEmpty (s : Scanner) (c : Byte) : Scanner × ScanCode :=
  if isSpace c then (s, ScanCode.scanSkipSpace)
  else if c = 93 then stateEndValue s c
  else stateBeginValue s c

/-- Go `stateBeginString`. -/
def stateBeginString (s : Scanner) (c : Byte) : Scanner × ScanCode :=
  if isSpace c then (s, ScanCode.scanSkipSpace)
  else if c = 34 then ({ s with step := StepFn.stateInString }, ScanCode.scanBeginLiteral)
  else s.error c "looking for beginning of object key string"

/-- Go `stateBeginStringOrEmpty`. -/
def stateBeginStringOrEmpty (s : Scanner) (c : Byte) : Scanner × ScanCode :=
  if isSpace c then (s, ScanCode.scanSkipSpace)
  else if c = 125 then
    stateEndValue { s with parseState := ParseState.parseObjectValue :: s.parseState.tail } c
  else stateBeginString s c

/-- Go `stateInString`. -/
def stateInString (s : Scanner) (c : Byte) : Scanner × ScanCode :=
  if c = 34 then ({ s with step := StepFn.stateEndValue }, ScanCode.scanContinue)
  else if c = 92 then ({ s with step := StepFn.stateInStringEsc }, ScanCode.scanContinue)
  else if c < 32 then s.error c "in string literal"
  else (s, ScanCode.scanContinue)

/-- Go `stateInStringEsc`. -/
def stateInStringEsc (s : Scanner) (c : Byte) : Scanner × ScanCode :=
  if c = 98 ∨ c = 102 ∨ c = 110 ∨ c = 114 ∨ c = 116 ∨ c = 92 ∨ c = 47 ∨ c = 34 then
    ({ s with step := StepFn.stateInString }, ScanCode.scanContinue)
  else if c = 117 then ({ s with step := StepFn.stateInStringEscU }, ScanCode.scanContinue)
  else s.error c "in string escape code"

/-- Go `stateInStringEscU`, `stateInStringEscU1`, `stateInStringEscU12` and
`stateInStringEscU123`: one hexadecimal digit, then the step `next`. -/
def stateInStringEscHex (next : StepFn) (s : Scanner) (c : Byte) : Scanner × ScanCode :=
  if isHex c then ({ s with step := next }, ScanCode.scanContinue)
  else s.error c "in \\u hexadecimal character escape"

/-- Go `state0`. -/
def state0 (s : Scanner) (c : Byte) : Scanner × ScanCode :=
  if c = 46 then ({ s with step := StepFn.stateDot }, ScanCode.scanContinue)
  else if c = 101 ∨ c = 69 then ({ s with step := StepFn.stateE }, ScanCode.scanContinue)
  else stateEndValue s c

/-- Go `state1`. -/
def state1 (s : Scanner) (c : Byte) : Scanner × ScanCode :=
  if isDigit c then ({ s with step := StepFn.state1 }, ScanCode.scanContinue)
  else state0 s c

/-- Go `stateNeg`. -/
def stateNeg (s : Scanner) (c : Byte) : Scanner × ScanCode :=
  if c = 48 then ({ s with step := StepFn.state0 }, ScanCode.scanContinue)
  else if isDigit19 c then ({ s with step := StepFn.state1 }, ScanCode.scanContinue)
  else s.error c "in numeric literal"

/-- Go `stateDot`. -/
def stateDot (s : Scanner) (c : Byte) : Scanner × ScanCode :=
  if isDigit c then ({ s with step := StepFn.stateDot0 }, ScanCode.scanContinue)
  else s.error c "after decimal point in numeric literal"

/-- Go `stateDot0`. -/
def stateDot0 (s : Scanner) (c : Byte) : Scanner × ScanCode :=
  if isDigit c then (s, ScanCode.scanContinue)
  else if c = 101 ∨ c = 69 then ({ s with step := StepFn.stateE }, ScanCode.scanContinue)
  else stateEndValue s c

/-- Go `stateESign`. -/
def stateESign (s : Scanner) (c : Byte) : Scanner × ScanCode :=
  if isDigit c then ({ s with step := StepFn.stateE0 }, ScanCode.scanContinue)
  else s.error c "in exponent of numeric literal"

/-- Go `stateE`. -/
def stateE (s : Scanner) (c : Byte) : Scanner × ScanCode :=
  if c = 43 ∨ c = 45 then ({ s with step := StepFn.stateESign }, ScanCode.scanContinue)
  else stateESign s c

/-- Go `stateE0`. -/
def stateE0 (s : Scanner) (c : Byte) : Scanner × ScanCode :=
  if isDigit c then (s, ScanCode.scanContinue)
  else stateEndValue s c

/-- The states inside the literals `true`, `false` and `null` that expect the
byte `want` and then go to the step `next` (`stateT`, `stateTr`, `stateF`,
`stateFa`, `stateFal`, `stateN`, `stateNu`). -/
def stateLit (want : Byte) (next : StepFn) (context : String) (s : Scanner) (c : Byte) :
    Scanner × ScanCode :=
  if c = want then ({ s with step := next }, ScanCode.scanContinue)
  else s.error c context

/-- Go `stateError`. -/
def stateError (s : Scanner) (_c : Byte) : Scanner × ScanCode := (s, ScanCode.scanError)

/-- The call `s.step(s, c)` through the function pointer. -/
def Scanner.doStep (s : Scanner) (c : Byte) : Scanner × ScanCode :=
  match s.step with
  | StepFn.stateBeginValueOrEmpty => stateBeginValueOrEmpty s c
  | StepFn.stateBeginValue => stateBeginValue s c
  | StepFn.stateBeginStringOrEmpty => stateBeginStringOrEmpty s c
  | StepFn.stateBeginString => stateBeginString s c
  | StepFn.stateEndValue => stateEndValue s c
  | StepFn.stateEndTop => stateEndTop s c
  | StepFn.stateInString => stateInString s c
  | StepFn.stateInStringEsc => stateInStringEsc s c
  | StepFn.stateInStringEscU => stateInStringEscHex StepFn.stateInStringEscU1 s c
  | StepFn.stateInStringEscU1 => stateInStringEscHex StepFn.stateInStringEscU12 s c
  | StepFn.stateInStringEscU12 => stateInStringEscHex StepFn.stateInStringEscU123 s c
  | StepFn.stateInStringEscU123 => stateInStringEscHex StepFn.stateInString s c
  | StepFn.stateNeg => stateNeg s c
  | StepFn.state1 => state1 s c
  | StepFn.state0 => state0 s c
  | StepFn.stateDot => stateDot s c
  | StepFn.stateDot0 => stateDot0 s c
  | StepFn.stateE => stateE s c
  | StepFn.stateESign => stateESign s c
  | StepFn.stateE0 => stateE0 s c
  | StepFn.stateT => stateLit 114 StepFn.stateTr "in literal true (expecting 'r')" s c
  | StepFn.stateTr => stateLit 117 StepFn.stateTru "in literal true (expecting 'u')" s c
  | StepFn.stateTru => stateLit 101 StepFn.stateEndValue "in literal true (expecting 'e')" s c
  | StepFn.stateF => stateLit 97 StepFn.stateFa "in literal false (expecting 'a')" s c
  | StepFn.stateFa => stateLit 108 StepFn.stateFal "in literal false (expecting 'l')" s c
  | StepFn.stateFal => stateLit 115 StepFn.stateFals "in literal false (expecting 's')" s c
  | StepFn.stateFals => stateLit 101 StepFn.stateEndValue "in literal false (expecting 'e')" s c
  | StepFn.stateN => stateLit 117 StepFn.stateNu "in literal null (expecting 'u')" s c
  | StepFn.stateNu => stateLit 108 StepFn.stateNul "in literal null (expecting 'l')" s c
  | StepFn.stateNul => stateLit 108 StepFn.stateEndValue "in literal null (expecting 'l')" s c
  | StepFn.stateError => stateError s c

/-- Go `scanner.eof`. -/
def Scanner.eof (s : Scanner) : Scanner × ScanCode :=
  if s.err.isSome then (s, ScanCode.scanError)
  else if s.endTop then (s, ScanCode.scanEnd)
  else
    let s := (s.doStep 32).1
    if s.endTop then (s, ScanCode.scanEnd)
    else if s.err.isNone then
      ({ s with err := some ⟨none, "unexpected end of JSON input", s.bytes⟩ }, ScanCode.scanError)
    else (s, ScanCode.scanError)

/-- The loop of Go `checkValid`. -/
def checkValidLoop : Scanner → Bytes → Option SyntaxError
  | scan, [] => if (scan.eof).2 = ScanCode.scanError then (scan.eof).1.err else none
  | scan, c :: cs =>
    let scan := { scan with bytes := scan.bytes + 1 }
    let r := scan.doStep c
    if r.2 = ScanCode.scanError then r.1.err else checkValidLoop r.1 cs

/-- A scanner value before its first `reset` (Go's zero value; the step
pointer is set by `reset` before any use). -/
def Scanner.zero : Scanner := ⟨StepFn.stateBeginValue, false, [], none, 0⟩

/-- Go `checkValid(data, scan)`: `none` when `data` is valid JSON. -/
def checkValid (data : Bytes) : Option SyntaxError :=
  checkValidLoop Scanner.zero.reset data

/-! ## `encoding/json`: decoding into an `int64` (`decode.go`) -/

/-- Go `json.UnmarshalTypeError`; the destination type is always `int64`
here, so only the description of the JSON value and the offset are kept. -/
structure UnmarshalTypeError where
  Value : Bytes
  Offset : Nat
  deriving DecidableEq, Repr

/-- The values of Go's interface `error` that the functions of this package
can return. -/
inductive GoError where
  | numError (e : NumError)
  | jsonSyntaxError (e : SyntaxError)
  | jsonTypeError (e : UnmarshalTypeError)
  | errorString (msg : String)
  deriving DecidableEq, Repr

/-- Go `json.decodeState`, without the fields that only matter for struct,
map and interface destinations. -/
structure DecodeState where
  data : Bytes
  off : Nat
  opcode : ScanCode
  scan : Scanner
  savedError : Option GoError
  deriving DecidableEq, Repr

/-- Go `decodeState.saveError`: only the first error is kept. -/
def DecodeState.saveError (d : DecodeState) (err : GoError) : DecodeState :=
  if d.savedError.isNone then { d with savedError := some err } else d

/-- The loop of Go `decodeState.scanWhile(op)` over the unread bytes
`data[i:]`: the scanner after the bytes it took, and the first op code other
than `op` with the index behind its byte, if there is one. -/
def scanWhileLoop (op : ScanCode) : Scanner → Bytes → Nat → Scanner × Option (ScanCode × Nat)
  | s, [], _ => (s, none)
  | s, c :: cs, i =>
    let r := s.doStep c
    if r.2 ≠ op then (r.1, some (r.2, i + 1)) else scanWhileLoop op r.1 cs (i + 1)

/-- Go `decodeState.scanWhile`. -/
def DecodeState.scanWhile (d : DecodeState) (op : ScanCode) : DecodeState :=
  match scanWhileLoop op d.scan (d.data.drop d.off) d.off with
  | (s, some (newOp, i)) => { d with scan := s, opcode := newOp, off := i }
  | (s, none) => { d with scan := (s.eof).1, opcode := (s.eof).2, off := d.data.length + 1 }

/-- The string loop of Go `rescanLiteral` over `data[i:]`: the index behind
the closing quote (a backslash skips the byte after it). -/
def rescanString : Bytes → Nat → Nat
  | [], i => i
  | [c], i => if c = 92 then i + 2 else i + 1
  | c :: c2 :: cs, i =>
    if c = 92 then rescanString cs (i + 2)
    else if c = 34 then i + 1
    else rescanString (c2 :: cs) (i + 1)

/-- The bytes the number loop of Go `rescanLiteral` steps over. -/
def isNumberByte (c : Byte) : Bool :=
  isDigit c || decide (c = 46) || decide (c = 101) || decide (c = 69) || decide (c = 43) ||
    decide (c = 45)

/-- The number loop of Go `rescanLiteral` over `data[i:]`. -/
def rescanNumber : Bytes → Nat → Nat
  | [], i => i
  | c :: cs, i => if isNumberByte c then rescanNumber cs (i + 1) else i

/-- Go `decodeState.rescanLiteral`. -/
def DecodeState.rescanLiteral (d : DecodeState) : DecodeState :=
  let first := d.data.getD (d.off - 1) 0
  let i :=
    if first = 34 then rescanString (d.data.drop d.off) d.off
    else if isDigit first || decide (first = 45) then rescanNumber (d.data.drop d.off) d.off
    else if first = 116 then d.off + 3
    else if first = 102 then d.off + 4
    else if first = 110 then d.off + 3
    else d.off
  if i < d.data.length then
    let r := stateEndValue d.scan (d.data.getD i 0)
    { d with scan := r.1, opcode := r.2, off := i + 1 }
  else { d with opcode := ScanCode.scanEnd, off := i + 1 }

/-- Go `decodeState.readIndex`. -/
def DecodeState.readIndex (d : DecodeState) : Nat := d.off - 1

/-- Go `decodeState.literalStore(item, v, false)` for `v` of kind `int64`
holding `v`: the new value of the destination and the decoder state, `none`
when Go panics with `phasePanicMsg`. A string literal is one the scanner has
accepted, which `unquoteBytes` never rejects. A `null` is ignored for a
destination of a primitive kind. -/
def DecodeState.literalStore (d : DecodeState) (item : Bytes) (v : Int) :
    Option (Int × DecodeState) :=
  match item with
  | [] => some (v, d.saveError (GoError.errorString "json: invalid use of ,string struct tag"))
  | c :: _ =>
    if c = 110 then some (v, d)
    else if c = 116 ∨ c = 102 then
      some (v, d.saveError (GoError.jsonTypeError ⟨ascii "bool", d.readIndex⟩))
    else if c = 34 then
      some (v, d.saveError (GoError.jsonTypeError ⟨ascii "string", d.readIndex⟩))
    else if c ≠ 45 ∧ (c < 48 ∨ c > 57) then none
    else
      let r := ParseInt item
      if r.2.isSome then
        some (v, d.saveError (GoError.jsonTypeError ⟨ascii "number " ++ item, d.readIndex⟩))
      else some (r.1, d)

/-- Go `decodeState.value(v)` for `v` of kind `int64`: an array or an object
saves a type error (the rest of the value is then skipped, which touches
neither the destination nor the saved error), a literal goes to
`literalStore`; `none` when Go panics with `phasePanicMsg`. -/
def DecodeState.value (d : DecodeState) (v : Int) : Option (Int × DecodeState) :=
  match d.opcode with
  | ScanCode.scanBeginArray =>
    some (v, d.saveError (GoError.jsonTypeError ⟨ascii "array", d.off⟩))
  | ScanCode.scanBeginObject =>
    some (v, d.saveError (GoError.jsonTypeError ⟨ascii "object", d.off⟩))
  | ScanCode.scanBeginLiteral =>
    let start := d.readIndex
    let d := d.rescanLiteral
    d.literalStore ((d.data.drop start).take (d.readIndex - start)) v
  | _ => none

/-- Go `json.Unmarshal(data, &i)` for `i int64` holding `i`: the new value of
`i` and the error, `none` when Go panics. -/
def jsonUnmarshalInt64 (data : Bytes) (i : Int) : Option (Int × Option GoError) :=
  match checkValid data with
  | some e => some (i, some (GoError.jsonSyntaxError e))
  | none =>
    let d : DecodeState := ⟨data, 0, ScanCode.scanContinue, Scanner.zero.reset, none⟩
    let d := d.scanWhile ScanCode.scanSkipSpace
    match d.value i with
    | none => none
    | some (i1, d1) => some (i1, d1.savedError)

/-- Go `json.Marshal(v)` for `v int64`: the encoder of an integer writes
`strconv.AppendInt(_, v, 10)` and nothing else. -/
def jsonMarshalInt64 (v : Int) : Bytes × Option GoError := (FormatInt v, none)

/-! ## `time`: the parts of `time.Time` the package uses -/

/-- A non-nil `*time.Location`: the two locations the package `time` itself
owns, and any other one (a name and its offset east of UTC in seconds). -/
inductive Location where
  | UTC
  | Local
  | Fixed (name : String) (offset : Int)
  deriving DecidableEq, Repr

/-- Go `time.Time`: `wall` is a `uint64`, `ext` an `int64`, `loc` a pointer
(`none` is `nil`, which stands for UTC). -/
structure Time where
  wall : Nat
  ext : Int
  loc : Option Location
  deriving DecidableEq, Repr

def hasMonotonic : Nat := 9223372036854775808

def nsecMask : Nat := 1073741823

def nsecShift : Nat := 30

def secondsPerDay : Int := 86400

def unixToInternal : Int := (1969 * 365 + 1969 / 4 - 1969 / 100 + 1969 / 400) * secondsPerDay

def internalToUnix : Int := -unixToInternal

def wallToInternal : Int := (1884 * 365 + 1884 / 4 - 1884 / 100 + 1884 / 400) * secondsPerDay

/-- Go `Time.nsec`. -/
def Time.nsec (t : Time) : Nat := t.wall &&& nsecMask

/-- Go `Time.sec`: seconds since year 1. -/
def Time.sec (t : Time) : Int :=
  if t.wall &&& hasMonotonic ≠ 0 then
    wrapInt64 (wallToInternal + (((t.wall <<< 1) % 18446744073709551616) >>> (nsecShift + 1) : Nat))
  else t.ext

/-- Go `Time.unixSec`. -/
def Time.unixSec (t : Time) : Int := wrapInt64 (t.sec + internalToUnix)

/-- Go `Time.Unix`. -/
def Time.Unix (t : Time) : Int := t.unixSec

/-- Go `Time.stripMono`. -/
def Time.stripMono (t : Time) : Time :=
  if t.wall &&& hasMonotonic ≠ 0 then { t with ext := t.sec, wall := t.wall &&& nsecMask } else t

/-- Go `Time.setLoc`. -/
def Time.setLoc (t : Time) (loc : Location) : Time :=
  let loc := if loc = Location.UTC then none else some loc
  { t.stripMono with loc := loc }

/-- Go `Time.In`: it panics (`none`) on a nil location. -/
def Time.In (t : Time) (loc : Option Location) : Option Time :=
  match loc with
  | none => none
  | some l => some (t.setLoc l)

/-- Go `Time.Location`: the location of `t`, UTC for a nil pointer. -/
def Time.Location (t : Time) : Location :=
  match t.loc with
  | none => Location.UTC
  | some l => l

/-- Go `time.unixTime`. -/
def unixTime (sec : Int) (nsec : Int) : Time :=
  ⟨wrapUint64 nsec, wrapInt64 (sec + unixToInternal), some Location.Local⟩

/-- Go `time.Unix(sec, nsec)`. -/
def timeUnix (sec : Int) (nsec : Int) : Time :=
  if nsec < 0 ∨ nsec ≥ 1000000000 then
    let n := nsec.tdiv 1000000000
    let sec := wrapInt64 (sec + n)
    let nsec := wrapInt64 (nsec - wrapInt64 (n * 1000000000))
    if nsec < 0 then unixTime (wrapInt64 (sec - 1)) (wrapInt64 (nsec + 1000000000))
    else unixTime sec nsec
  else unixTime sec nsec

/-! ## `github.com/aws/aws-sdk-go/service/dynamodb`: `AttributeValue` -/

/-- Go `dynamodb.AttributeValue`. A pointer field is an `Option`, a slice a
list, the map a list of key and value pairs. -/
inductive AttributeValue where
  | mk (B : Bytes) (BOOL : Option Bool) (BS : List Bytes) (L : List (Option AttributeValue))
      (M : List (Bytes × Option AttributeValue)) (N : Option Bytes) (NS : List (Option Bytes))
      (NULL : Option Bool) (S : Option Bytes) (SS : List (Option Bytes))

/-- The field `N` of an attribute value. -/
def AttributeValue.N : AttributeValue → Option Bytes
  | AttributeValue.mk _ _ _ _ _ n _ _ _ _ => n

/-- The assignment `av.N = n`. -/
def AttributeValue.setN : AttributeValue → Option Bytes → AttributeValue
  | AttributeValue.mk b bool bs l m _ ns null s ss, n => AttributeValue.mk b bool bs l m n ns null s ss

/-- The zero value `&dynamodb.AttributeValue{}`. -/
def AttributeValue.empty : AttributeValue :=
  AttributeValue.mk [] none [] [] [] none [] none none []

/-- The record `&dynamodb.AttributeValue{N: aws.String(n)}`. -/
def AttributeValue.ofN (n : Bytes) : AttributeValue :=
  AttributeValue.mk [] none [] [] [] (some n) [] none none []

/-! ## `seconds.go` -/

/-- Go `type Seconds int64`. -/
abbrev Seconds := Int

/-- Go `time.Second`, in nanoseconds. -/
def timeSecond : Int := 1000000000

/-- Go `func (s Seconds) Add(d time.Duration) Seconds`: `s + Seconds(d/time.Second)`. -/
def Seconds.Add (s : Seconds) (d : Int) : Seconds := wrapInt64 (s + d.tdiv timeSecond)

/-- Go `func (s Seconds) Int64() int64`. -/
def Seconds.Int64 (s : Seconds) : Int := s

/-- Go `func (s Seconds) MarshalJSON() ([]byte, error)`. -/
def Seconds.MarshalJSON (s : Seconds) : Bytes × Option GoError := jsonMarshalInt64 s

/-- Go `func (s *Seconds) UnmarshalJSON(data []byte) error`: the new value of
the receiver and the error; `none` when the call panics. -/
def Seconds.UnmarshalJSON (s : Seconds) (data : Bytes) : Option (Seconds × Option GoError) :=
  match jsonUnmarshalInt64 data 0 with
  | none => none
  | some (i, err) =>
    if err.isSome then some (s, err)
    else some (i, none)

/-- Go `func (s Seconds) TimeInLocation(loc *time.Location) time.Time`. -/
def Seconds.TimeInLocation (s : Seconds) (loc : Option Location) : Option Time :=
  (timeUnix (Seconds.Int64 s) 0).In loc

/-- Go `func (s Seconds) Time() time.Time`. -/
def Seconds.Time (s : Seconds) : Option Time := Seconds.TimeInLocation s (some Location.Local)

/-- Go `func (s Seconds) MarshalDynamoDBAttributeValue(av *dynamodb.AttributeValue) error`:
the record `av` points to afterwards and the error; `none` when `av` is nil
(a nil pointer dereference). -/
def Seconds.MarshalDynamoDBAttributeValue (s : Seconds) (av : Option AttributeValue) :
    Option (AttributeValue × Option GoError) :=
  match av with
  | none => none
  | some a => some (a.setN (some (FormatInt (Seconds.Int64 s))), none)

/-- Go `func (s *Seconds) UnmarshalDynamoDBAttributeValue(av *dynamodb.AttributeValue) error`:
the new value of the receiver and the error. -/
def Seconds.UnmarshalDynamoDBAttributeValue (s : Seconds) (av : Option AttributeValue) :
    Seconds × Option GoError :=
  match av with
  | none => (s, none)
  | some a =>
    match a.N with
    | none => (s, none)
    | some n =>
      let r := ParseInt n
      match r.2 with
      | some err => (s, some (GoError.numError err))
      | none => (r.1, none)

/-- Go `func From(t time.Time) Seconds`. -/
def From (t : Time) : Seconds := t.Unix

/-- Go `func Now() Seconds`, given the reading `time.Now()` of the clock. -/
def Now (clock : Time) : Seconds := From clock

/-! ## Specification-side and proof-side definitions -/

/-- The byte of the decimal digit `d`. -/
def digitByte (d : Nat) : Byte := Fin.ofNat (48 + d)

/-- Spec: the decimal representation of a natural number, its base-10 digits
(`Nat.digits`) with the most significant first, as bytes; `0` is `0`. -/
def decimal (n : Nat) : Bytes :=
  if n = 0 then [48] else (Nat.digits 10 n).reverse.map digitByte

/-- Spec: the number a list of decimal digit bytes denotes. -/
def decimalValue (ds : Bytes) : Nat := ds.foldl (fun a c => a * 10 + (c.val - 48)) 0

/-- What `formatBits` does with the outcome of its loop. -/
def formatTail (r : Nat × Bytes) : Bytes :=
  if r.1 ≥ 10 then smalls (r.1 * 2) :: smalls (r.1 * 2 + 1) :: r.2 else smalls (r.1 * 2 + 1) :: r.2

/-- The loop invariant of `ParseUint` without the overflow checks: the
number read so far, continued with the digits `ds`. -/
def accValue (n : Nat) (ds : Bytes) : Nat := ds.foldl (fun a c => a * 10 + (c.val - 48)) n

/-- Spec: the integer a base-10 signed integer string denotes, an optional
sign `+` or `-` followed by one or more decimal digits. -/
def signedDecimal? (n : Bytes) : Option Int :=
  match n with
  | [] => none
  | c :: rest =>
    let ds := if c = 45 ∨ c = 43 then rest else n
    if ds ≠ [] ∧ ds.all isDigit = true then
      some (if c = 45 then -(decimalValue ds : Int) else (decimalValue ds : Int))
    else none

/-- Spec: the value of a valid base-10 signed 64-bit integer string, `none`
for every other string. -/
def validInt64String? (n : Bytes) : Option Int :=
  match signedDecimal? n with
  | some v => if IsInt64 v then some v else none
  | none => none

/-- The string after the sign that `ParseInt` hands to `ParseUint`. -/
def afterSign (c : Byte) (rest : Bytes) : Bytes :=
  if c = 43 then rest else if c = 45 then rest else c :: rest

/-- The range check and sign handling at the end of `ParseInt`, on the
result `r` of `ParseUint`. -/
def parseIntTail (c : Byte) (s0 : Bytes) (r : Nat × Option NumError) : Int × Option NumError :=
  match r.2 with
  | some e =>
    if e.Err ≠ StrconvErr.ErrRange then (0, some { e with Func := "ParseInt", Num := s0 })
    else if !decide (c = 45) && decide (r.1 ≥ 9223372036854775808) then
      (9223372036854775807, some (rangeError "ParseInt" s0))
    else if decide (c = 45) && decide (r.1 > 9223372036854775808) then
      (-9223372036854775808, some (rangeError "ParseInt" s0))
    else (if decide (c = 45) then wrapInt64 (-(wrapInt64 r.1)) else wrapInt64 r.1, none)
  | none =>
    if !decide (c = 45) && decide (r.1 ≥ 9223372036854775808) then
      (9223372036854775807, some (rangeError "ParseInt" s0))
    else if decide (c = 45) && decide (r.1 > 9223372036854775808) then
      (-9223372036854775808, some (rangeError "ParseInt" s0))
    else (if decide (c = 45) then wrapInt64 (-(wrapInt64 r.1)) else wrapInt64 r.1, none)

/-- The scanner at the top level (empty stack, no error) with step `st`,
after `b` bytes. -/
def topScanner (st : StepFn) (endTop : Bool) (b : Nat) : Scanner := ⟨st, endTop, [], none, b⟩

/-- A list is empty or starts with a byte that cannot continue a number. -/
def EndsNumber (tl : Bytes) : Prop := tl = [] ∨ ∃ t rest, tl = t :: rest ∧ isNumberByte t = false

/-- Spec: the digits of a JSON integer literal, a single `0` or a digit from
`1` to `9` followed by any digits. -/
def isJsonIntBody (body : Bytes) : Bool :=
  match body with
  | [] => false
  | c :: cs => (decide (c = 48) && cs.isEmpty) || (isDigit19 c && cs.all isDigit)

/-- The index `rescanLiteral` stops at. -/
def litEnd (data : Bytes) (off : Nat) : Nat :=
  let first := data.getD (off - 1) 0
  if first = 34 then rescanString (data.drop off) off
  else if isDigit first || decide (first = 45) then rescanNumber (data.drop off) off
  else if first = 116 then off + 3
  else if first = 102 then off + 4
  else if first = 110 then off + 3
  else off

/-- Spec: the input without its leading and trailing JSON whitespace (space,
tab, carriage return, line feed). -/
def trimSpace (data : Bytes) : Bytes :=
  ((data.dropWhile isSpace).reverse.dropWhile isSpace).reverse

/-- Spec: the value of a JSON integer literal, an optional minus sign and
then a single `0` or a digit from `1` to `9` followed by any digits; `none`
for every other byte string. -/
def jsonIntLiteral? (lit : Bytes) : Option Int :=
  match lit with
  | [] => none
  | c :: rest =>
    let body := if c = 45 then rest else c :: rest
    if isJsonIntBody body = true then
      some (if c = 45 then -(decimalValue body : Int) else (decimalValue body : Int))
    else none

/-- Spec: the value of a JSON integer literal in the signed 64-bit range. -/
def jsonInt64Literal? (lit : Bytes) : Option Int :=
  match jsonIntLiteral? lit with
  | some v => if IsInt64 v then some v else none
  | none => none

/-- Spec: the position of an instant relative to the Unix epoch, in
nanoseconds (Go `Time.UnixNano` without the 64-bit wrap-around). -/
def nanosSinceEpoch (t : Time) : Int := (t.sec + internalToUnix) * 1000000000 + (t.nsec : Int)

/-! ## Lemmas -/

theorem wrapInt64_of_isInt64 {v : Int} (h : IsInt64 v) : wrapInt64 v = v := by
  unfold IsInt64 minInt64 maxInt64 at h
  unfold wrapInt64
  omega

theorem isInt64_wrapInt64 (x : Int) : IsInt64 (wrapInt64 x) := by
  unfold IsInt64 minInt64 maxInt64 wrapInt64
  omega

set_option maxRecDepth 100000 in
theorem smalls_table : ∀ k : Fin 100,
    smalls (k.val * 2) = digitByte (k.val / 10) ∧ smalls (k.val * 2 + 1) = digitByte (k.val % 10) := by
  decide

theorem smalls_even {k : Nat} (h : k < 100) : smalls (k * 2) = digitByte (k / 10) :=
  (smalls_table ⟨k, h⟩).1

theorem smalls_odd {k : Nat} (h : k < 100) : smalls (k * 2 + 1) = digitByte (k % 10) :=
  (smalls_table ⟨k, h⟩).2

theorem decimal_lt_ten {n : Nat} (h : n < 10) : decimal n = [digitByte n] := by
  unfold decimal
  split
  · subst n; rfl
  · rw [Nat.digits_def' (by norm_num) (by omega)]
    have h1 : n % 10 = n := Nat.mod_eq_of_lt h
    have h2 : n / 10 = 0 := by omega
    simp [h1, h2]

theorem decimal_step {n : Nat} (h : 10 ≤ n) :
    decimal n = decimal (n / 10) ++ [digitByte (n % 10)] := by
  unfold decimal
  have h0 : n ≠ 0 := by omega
  have h1 : n / 10 ≠ 0 := by omega
  rw [if_neg h0, if_neg h1]
  conv_lhs => rw [Nat.digits_def' (by norm_num) (by omega)]
  simp

theorem formatTail_small {us : Nat} (h : us < 100) (acc : Bytes) :
    formatTail (us, acc) = decimal us ++ acc := by
  unfold formatTail
  by_cases h10 : us ≥ 10
  · simp only [h10, if_true]
    rw [smalls_even h, smalls_odd h, decimal_step h10, decimal_lt_ten (by omega : us / 10 < 10)]
    simp
  · simp only [h10, if_false]
    rw [smalls_odd h, decimal_lt_ten (by omega)]
    have : us % 10 = us := by omega
    simp [this]

theorem formatLoop_spec : ∀ (fuel us : Nat) (acc : Bytes), us ≤ fuel →
    formatTail (formatLoop fuel us acc) = decimal us ++ acc := by
  intro fuel
  induction fuel with
  | zero =>
    intro us acc h
    have : us = 0 := by omega
    subst this
    simp only [formatLoop]
    exact formatTail_small (by norm_num) acc
  | succ f ih =>
    intro us acc h
    simp only [formatLoop]
    by_cases h100 : us ≥ 100
    · simp only [h100, if_true]
      rw [ih (us / 100) _ (by omega)]
      have hm : us % 100 < 100 := Nat.mod_lt _ (by norm_num)
      rw [smalls_even hm, smalls_odd hm]
      rw [decimal_step (by omega : 10 ≤ us), decimal_step (by omega : 10 ≤ us / 10)]
      have e1 : us / 10 / 10 = us / 100 := by omega
      have e2 : us / 10 % 10 = us % 100 / 10 := by omega
      have e3 : us % 100 % 10 = us % 10 := by omega
      rw [e1, e2, e3]
      simp
    · simp only [h100, if_false]
      exact formatTail_small (by omega) acc

theorem formatBits_eq (u : Nat) (neg : Bool) :
    formatBits u neg =
      (if neg then 45 :: decimal (wrapUint64 (-(u : Int))) else decimal u) := by
  unfold formatBits
  cases neg with
  | false =>
    have h := formatLoop_spec u u [] (le_refl _)
    unfold formatTail at h
    simp only [Bool.false_eq_true, if_false]
    split
    · rename_i h10; rw [if_pos h10] at h; simpa using h
    · rename_i h10; rw [if_neg h10] at h; simpa using h
  | true =>
    have h := formatLoop_spec (wrapUint64 (-(u : Int))) (wrapUint64 (-(u : Int))) [] (le_refl _)
    unfold formatTail at h
    simp only [if_true]
    split
    · rename_i h10; rw [if_pos h10] at h; simpa using h
    · rename_i h10; rw [if_neg h10] at h; simpa using h

/-- The text `FormatInt` produces: a minus sign for a negative number, then
the decimal digits of the absolute value. -/
theorem FormatInt_eq {v : Int} (h : IsInt64 v) :
    FormatInt v = (if v < 0 then 45 :: decimal v.natAbs else decimal v.natAbs) := by
  unfold IsInt64 minInt64 maxInt64 at h
  unfold FormatInt
  by_cases hs : 0 ≤ v ∧ v < 100
  · rw [if_pos hs, if_neg (by omega)]
    have e : v.toNat = v.natAbs := by omega
    rw [e]
    have hn : v.natAbs < 100 := by omega
    unfold small
    by_cases h10 : v.natAbs < 10
    · rw [if_pos h10, decimal_lt_ten h10]; rfl
    · rw [if_neg h10, smalls_even hn, smalls_odd hn, decimal_step (by omega),
        decimal_lt_ten (by omega : v.natAbs / 10 < 10)]
      rfl
  · rw [if_neg hs, formatBits_eq]
    by_cases hneg : v < 0
    · have e : wrapUint64 (-((wrapUint64 v : Nat) : Int)) = v.natAbs := by
        unfold wrapUint64; omega
      simp only [hneg, decide_True, if_true, e]
    · have e : wrapUint64 v = v.natAbs := by unfold wrapUint64; omega
      simp only [hneg, decide_False, if_false, e, Bool.false_eq_true]

/-! ### Parsing -/

theorem accValue_ge (ds : Bytes) : ∀ n, n ≤ accValue n ds := by
  induction ds with
  | nil => intro n; exact le_refl _
  | cons c cs ih =>
    intro n
    have := ih (n * 10 + (c.val - 48))
    unfold accValue at *
    simp only [List.foldl_cons]
    omega

theorem digitVal_digit {c : Byte} (h : isDigit c = true) :
    digitVal c = some (c.val - 48) ∧ c.val - 48 < 10 := by
  unfold isDigit at h
  simp only [Bool.and_eq_true, decide_eq_true_eq] at h
  have h1 : 48 ≤ c.val := h.1
  have h2 : c.val ≤ 57 := h.2
  unfold digitVal
  rw [if_pos ⟨h1, h2⟩]
  exact ⟨rfl, by omega⟩

theorem digitVal_not_digit {c : Byte} (h : isDigit c = false) :
    digitVal c = none ∨ ∃ d, digitVal c = some d ∧ d ≥ 10 := by
  have hn : ¬ (48 ≤ c.val ∧ c.val ≤ 57) := by
    intro hc
    have : isDigit c = true := by
      unfold isDigit
      simp only [Bool.and_eq_true, decide_eq_true_eq]
      exact ⟨hc.1, hc.2⟩
    rw [h] at this
    exact Bool.noConfusion this
  unfold digitVal
  rw [if_neg hn]
  split
  · exact Or.inr ⟨_, rfl, by omega⟩
  · exact Or.inl rfl

/-- What the loop of `ParseUint` returns: the number when every byte is a
digit and the number fits 64 bits, and one of its two errors otherwise. -/
theorem parseUintLoop_cases (s0 : Bytes) (ds : Bytes) : ∀ n, n < 18446744073709551616 →
    (ds.all isDigit = true ∧ accValue n ds < 18446744073709551616 ∧
        parseUintLoop s0 n ds = (accValue n ds, none)) ∨
    (¬ (ds.all isDigit = true ∧ accValue n ds < 18446744073709551616) ∧
        (parseUintLoop s0 n ds = (0, some (syntaxError "ParseUint" s0)) ∨
         parseUintLoop s0 n ds = (maxUint64, some (rangeError "ParseUint" s0)))) := by
  induction ds with
  | nil =>
    intro n hn
    left
    exact ⟨rfl, hn, rfl⟩
  | cons c cs ih =>
    intro n hn
    have hacc : accValue n (c :: cs) = accValue (n * 10 + (c.val - 48)) cs := rfl
    cases hd : isDigit c with
    | false =>
      right
      refine ⟨?_, ?_⟩
      · intro h
        simp [List.all_cons, hd] at h
      · left
        rcases digitVal_not_digit hd with h | ⟨d, h, hge⟩
        · simp only [parseUintLoop, h]
        · simp only [parseUintLoop, h, hge, if_true]
    | true =>
      obtain ⟨hv, hlt⟩ := digitVal_digit hd
      have hge := accValue_ge cs (n * 10 + (c.val - 48))
      simp only [parseUintLoop, hv]
      rw [if_neg (by omega)]
      by_cases hcut : n ≥ cutoff10
      · right
        rw [if_pos hcut]
        refine ⟨?_, Or.inr rfl⟩
        intro h
        unfold cutoff10 maxUint64 at hcut
        omega
      · rw [if_neg hcut]
        unfold cutoff10 maxUint64 at hcut
        have e10 : n * 10 % 18446744073709551616 = n * 10 := Nat.mod_eq_of_lt (by omega)
        simp only [e10]
        by_cases hov : n * 10 + (c.val - 48) < 18446744073709551616
        · have e1 : (n * 10 + (c.val - 48)) % 18446744073709551616 = n * 10 + (c.val - 48) :=
            Nat.mod_eq_of_lt hov
          simp only [e1]
          rw [if_neg (by unfold maxUint64; omega)]
          rcases ih (n * 10 + (c.val - 48)) hov with ⟨h1, h2, h3⟩ | ⟨h1, h2⟩
          · left
            refine ⟨?_, ?_, ?_⟩
            · simp [List.all_cons, hd, h1]
            · rw [hacc]; exact h2
            · rw [hacc]; exact h3
          · right
            refine ⟨?_, h2⟩
            intro h
            apply h1
            rw [hacc] at h
            refine ⟨?_, h.2⟩
            have := h.1
            simp only [List.all_cons, hd, Bool.true_and] at this
            exact this
        · right
          rw [if_pos (by left; omega)]
          refine ⟨?_, Or.inr rfl⟩
          intro h
          omega

theorem ParseUint_cases (s : Bytes) :
    (s ≠ [] ∧ s.all isDigit = true ∧ decimalValue s < 18446744073709551616 ∧
        ParseUint s = (decimalValue s, none)) ∨
    (¬ (s ≠ [] ∧ s.all isDigit = true ∧ decimalValue s < 18446744073709551616) ∧
        (ParseUint s = (0, some (syntaxError "ParseUint" s)) ∨
         ParseUint s = (maxUint64, some (rangeError "ParseUint" s)))) := by
  unfold ParseUint
  by_cases hs : s = []
  · right
    rw [if_pos hs]
    exact ⟨fun h => h.1 hs, Or.inl rfl⟩
  · rw [if_neg hs]
    rcases parseUintLoop_cases s s 0 (by norm_num) with ⟨h1, h2, h3⟩ | ⟨h1, h2⟩
    · left; exact ⟨hs, h1, h2, h3⟩
    · right
      exact ⟨fun h => h1 ⟨h.2.1, h.2.2⟩, h2⟩

theorem ParseInt_eq (c : Byte) (rest : Bytes) :
    ParseInt (c :: rest) = parseIntTail c (c :: rest) (ParseUint (afterSign c rest)) := rfl

theorem validInt64String?_cons (c : Byte) (rest : Bytes) :
    validInt64String? (c :: rest) =
      (if afterSign c rest ≠ [] ∧ (afterSign c rest).all isDigit = true then
        (if IsInt64 (if c = 45 then -(decimalValue (afterSign c rest) : Int)
              else (decimalValue (afterSign c rest) : Int))
         then some (if c = 45 then -(decimalValue (afterSign c rest) : Int)
              else (decimalValue (afterSign c rest) : Int))
         else none)
       else none) := by
  have hs1 : (if c = 45 ∨ c = 43 then rest else c :: rest) = afterSign c rest := by
    unfold afterSign
    by_cases h1 : c = 43
    · simp [h1]
    · by_cases h2 : c = 45
      · simp [h2]
      · simp [h1, h2]
  unfold validInt64String? signedDecimal?
  simp only [hs1]
  split
  · rename_i v hv
    split at hv
    · rename_i hd
      rw [if_pos hd]
      simp only [Option.some.injEq] at hv
      rw [hv]
    · exact Option.noConfusion hv
  · rename_i hv
    split at hv
    · exact Option.noConfusion hv
    · rename_i hd
      rw [if_neg hd]

/-- `ParseInt` against the spec: it returns the value of a valid base-10
signed 64-bit integer string with no error, and an error for every other
string. -/
theorem ParseInt_spec (n : Bytes) :
    (∀ v, validInt64String? n = some v → ParseInt n = (v, none)) ∧
    (validInt64String? n = none → ∃ e, (ParseInt n).2 = some e) := by
  cases n with
  | nil =>
    refine ⟨fun v h => ?_, fun _ => ⟨_, rfl⟩⟩
    simp [validInt64String?, signedDecimal?] at h
  | cons c rest =>
    rw [ParseInt_eq, validInt64String?_cons]
    generalize afterSign c rest = s1
    unfold parseIntTail
    rcases ParseUint_cases s1 with ⟨h1, h2, h3, h4⟩ | ⟨h1, h2 | h2⟩
    · simp only [h4, if_pos (And.intro h1 h2)]
      generalize decimalValue s1 = m at h3
      unfold IsInt64 minInt64 maxInt64
      by_cases hneg : c = 45
      · simp only [hneg, if_true, decide_True, Bool.not_true, Bool.false_and, Bool.true_and,
          decide_eq_true_eq, Bool.false_eq_true, if_false]
        by_cases hr : m > 9223372036854775808
        · rw [if_pos hr, if_neg (by omega)]
          exact ⟨fun v h => by simp at h, fun _ => ⟨_, rfl⟩⟩
        · rw [if_neg hr, if_pos (by omega)]
          refine ⟨fun v h => ?_, fun h => by simp at h⟩
          simp only [Option.some.injEq] at h
          subst h
          simp only [Prod.mk.injEq, and_true]
          unfold wrapInt64
          omega
      · simp only [hneg, if_false, decide_False, Bool.not_false, Bool.true_and, Bool.false_and,
          decide_eq_true_eq, Bool.false_eq_true]
        by_cases hr : m ≥ 9223372036854775808
        · rw [if_pos hr, if_neg (by omega)]
          exact ⟨fun v h => by simp at h, fun _ => ⟨_, rfl⟩⟩
        · rw [if_neg hr, if_pos (by omega)]
          refine ⟨fun v h => ?_, fun h => by simp at h⟩
          simp only [Option.some.injEq] at h
          subst h
          simp only [Prod.mk.injEq, and_true]
          unfold wrapInt64
          omega
    · have hspec : ∀ v, ¬ ((if s1 ≠ [] ∧ s1.all isDigit = true then
          (if IsInt64 (if c = 45 then -(decimalValue s1 : Int) else (decimalValue s1 : Int))
           then some (if c = 45 then -(decimalValue s1 : Int) else (decimalValue s1 : Int))
           else none) else none) = some v) := by
        intro v h
        by_cases hd : s1 ≠ [] ∧ s1.all isDigit = true
        · rw [if_pos hd] at h
          have hnot : ¬ decimalValue s1 < 18446744073709551616 := fun hh => h1 ⟨hd.1, hd.2, hh⟩
          by_cases hi : IsInt64 (if c = 45 then -(decimalValue s1 : Int) else (decimalValue s1 : Int))
          · unfold IsInt64 minInt64 maxInt64 at hi
            split at hi <;> omega
          · rw [if_neg hi] at h
            exact Option.noConfusion h
        · rw [if_neg hd] at h
          exact Option.noConfusion h
      simp only [h2, syntaxError]
      exact ⟨fun v h => absurd h (hspec v), fun _ => by simp⟩
    · have hspec : ∀ v, ¬ ((if s1 ≠ [] ∧ s1.all isDigit = true then
          (if IsInt64 (if c = 45 then -(decimalValue s1 : Int) else (decimalValue s1 : Int))
           then some (if c = 45 then -(decimalValue s1 : Int) else (decimalValue s1 : Int))
           else none) else none) = some v) := by
        intro v h
        by_cases hd : s1 ≠ [] ∧ s1.all isDigit = true
        · rw [if_pos hd] at h
          have hnot : ¬ decimalValue s1 < 18446744073709551616 := fun hh => h1 ⟨hd.1, hd.2, hh⟩
          by_cases hi : IsInt64 (if c = 45 then -(decimalValue s1 : Int) else (decimalValue s1 : Int))
          · unfold IsInt64 minInt64 maxInt64 at hi
            split at hi <;> omega
          · rw [if_neg hi] at h
            exact Option.noConfusion h
        · rw [if_neg hd] at h
          exact Option.noConfusion h
      simp only [h2, rangeError, maxUint64]
      refine ⟨fun v h => absurd h (hspec v), fun _ => ?_⟩
      by_cases hneg : c = 45
      · simp [hneg]
      · simp [hneg]

/-! ### Formatting then parsing -/

theorem digitByte_table : ∀ d : Fin 10,
    isDigit (digitByte d.val) = true ∧ (digitByte d.val).val - 48 = d.val ∧
      (digitByte d.val = 48 → d.val = 0) := by
  decide

theorem decimal_all_isDigit (n : Nat) : (decimal n).all isDigit = true := by
  induction n using Nat.strong_induction_on with
  | _ n ih =>
    by_cases h : n < 10
    · rw [decimal_lt_ten h]
      simp [(digitByte_table ⟨n, h⟩).1]
    · rw [decimal_step (by omega)]
      have hm : n % 10 < 10 := Nat.mod_lt _ (by norm_num)
      simp [ih (n / 10) (by omega), (digitByte_table ⟨n % 10, hm⟩).1]

theorem decimalValue_append_singleton (ds : Bytes) (c : Byte) :
    decimalValue (ds ++ [c]) = decimalValue ds * 10 + (c.val - 48) := by
  unfold decimalValue
  simp [List.foldl_append]

theorem decimalValue_decimal (n : Nat) : decimalValue (decimal n) = n := by
  induction n using Nat.strong_induction_on with
  | _ n ih =>
    by_cases h : n < 10
    · rw [decimal_lt_ten h]
      have := (digitByte_table ⟨n, h⟩).2.1
      simp only at this
      simp [decimalValue, this]
    · rw [decimal_step (by omega), decimalValue_append_singleton, ih (n / 10) (by omega)]
      have hm : n % 10 < 10 := Nat.mod_lt _ (by norm_num)
      have := (digitByte_table ⟨n % 10, hm⟩).2.1
      simp only at this
      rw [this]
      omega

theorem decimal_ne_nil (n : Nat) : decimal n ≠ [] := by
  by_cases h : n < 10
  · rw [decimal_lt_ten h]; simp
  · rw [decimal_step (by omega)]; simp

theorem afterSign_digit {c : Byte} (h : isDigit c = true) (rest : Bytes) :
    afterSign c rest = c :: rest := by
  unfold isDigit at h
  simp only [Bool.and_eq_true, decide_eq_true_eq] at h
  unfold afterSign
  have h1 : c ≠ 43 := by intro e; subst e; exact absurd h.1 (by decide)
  have h2 : c ≠ 45 := by intro e; subst e; exact absurd h.1 (by decide)
  rw [if_neg h1, if_neg h2]

/-- The text `FormatInt` produces is a valid base-10 signed 64-bit integer
string, and denotes the number formatted. -/
theorem validInt64String?_FormatInt {v : Int} (h : IsInt64 v) :
    validInt64String? (FormatInt v) = some v := by
  rw [FormatInt_eq h]
  have hne := decimal_ne_nil v.natAbs
  have hall := decimal_all_isDigit v.natAbs
  have hval := decimalValue_decimal v.natAbs
  by_cases hneg : v < 0
  · rw [if_pos hneg, validInt64String?_cons]
    have ha : afterSign 45 (decimal v.natAbs) = decimal v.natAbs := rfl
    rw [ha, if_pos ⟨hne, hall⟩, hval]
    have e : (if (45 : Byte) = 45 then -((v.natAbs : Nat) : Int) else ((v.natAbs : Nat) : Int)) = v := by
      rw [if_pos rfl]; omega
    rw [e, if_pos h]
  · rw [if_neg hneg]
    generalize hd : decimal v.natAbs = ds at hne hall hval
    cases ds with
    | nil => exact absurd rfl hne
    | cons c rest =>
      have hc : isDigit c = true := by
        simp only [List.all_cons, Bool.and_eq_true] at hall
        exact hall.1
      rw [validInt64String?_cons, afterSign_digit hc, if_pos ⟨hne, hall⟩, hval]
      have h45 : c ≠ 45 := by
        intro e; subst e; revert hc; decide
      have e : (if c = 45 then -((v.natAbs : Nat) : Int) else ((v.natAbs : Nat) : Int)) = v := by
        rw [if_neg h45]; omega
      rw [e, if_pos h]

theorem ParseInt_FormatInt {v : Int} (h : IsInt64 v) : ParseInt (FormatInt v) = (v, none) :=
  (ParseInt_spec (FormatInt v)).1 v (validInt64String?_FormatInt h)

set_option maxRecDepth 100000 in
theorem space_class : ∀ c : Byte, isSpace c = true →
    isDigit c = false ∧ isNumberByte c = false ∧ isDigit19 c = false := by
  decide

theorem space_ne (c : Byte) (h : isSpace c = true) :
    c ≠ 123 ∧ c ≠ 91 ∧ c ≠ 34 ∧ c ≠ 45 ∧ c ≠ 48 ∧ c ≠ 116 ∧ c ≠ 102 ∧ c ≠ 110 := by
  refine ⟨?_, ?_, ?_, ?_, ?_, ?_, ?_, ?_⟩ <;> (intro e; subst e; revert h; decide)

set_option maxRecDepth 100000 in
theorem digit_class : ∀ c : Byte, isDigit c = true →
    isNumberByte c = true ∧ isSpace c = false ∧ (c = 48 ∨ isDigit19 c = true) := by
  decide

theorem digit_ne (c : Byte) (h : isDigit c = true) :
    c ≠ 46 ∧ c ≠ 101 ∧ c ≠ 69 ∧ c ≠ 45 ∧ c ≠ 43 ∧ c ≠ 123 ∧ c ≠ 91 ∧ c ≠ 34 ∧ c ≠ 116 ∧
      c ≠ 102 ∧ c ≠ 110 := by
  refine ⟨?_, ?_, ?_, ?_, ?_, ?_, ?_, ?_, ?_, ?_, ?_⟩ <;> (intro e; subst e; revert h; decide)

set_option maxRecDepth 100000 in
theorem digit19_class : ∀ c : Byte, isDigit19 c = true → isDigit c = true ∧ c ≠ 48 := by
  decide

set_option maxRecDepth 100000 in
theorem notNumber_class : ∀ c : Byte, isNumberByte c = false → isDigit c = false := by
  decide

theorem notNumber_ne (c : Byte) (h : isNumberByte c = false) :
    c ≠ 46 ∧ c ≠ 101 ∧ c ≠ 69 ∧ c ≠ 45 ∧ c ≠ 43 := by
  refine ⟨?_, ?_, ?_, ?_, ?_⟩ <;> (intro e; subst e; revert h; decide)

theorem checkValidLoop_failed (s : Scanner) (e : SyntaxError) (hs : s.step = StepFn.stateError)
    (he : s.err = some e) : ∀ cs, checkValidLoop s cs = some e := by
  intro cs
  cases cs with
  | nil => simp [checkValidLoop, Scanner.eof, he]
  | cons c cs => simp [checkValidLoop, Scanner.doStep, hs, stateError, he]

/-- After the top-level value only spaces may follow. -/
theorem checkValidLoop_endTop (cs : Bytes) : ∀ b st et,
    (st = StepFn.stateEndTop ∧ et = true) ∨ st = StepFn.stateEndValue →
    (checkValidLoop (topScanner st et b) cs = none ↔ cs.all isSpace = true) := by
  induction cs with
  | nil =>
    intro b st et hst
    rcases hst with ⟨h, h2⟩ | h
    · subst h; subst h2; simp [checkValidLoop, Scanner.eof, topScanner]
    · subst h
      cases et <;>
        simp [checkValidLoop, Scanner.eof, topScanner, Scanner.doStep, stateEndValue, stateEndTop,
          isSpace]
  | cons c cs ih =>
    intro b st et hst
    cases hc : isSpace c with
    | true =>
      have := ih (b + 1) StepFn.stateEndTop true (Or.inl ⟨rfl, rfl⟩)
      rcases hst with ⟨h, h2⟩ | h
      · subst h; subst h2
        simpa [checkValidLoop, Scanner.doStep, stateEndTop, stateEndValue, topScanner, hc] using this
      · subst h
        simpa [checkValidLoop, Scanner.doStep, stateEndTop, stateEndValue, topScanner, hc] using this
    | false =>
      have hf := fun et => checkValidLoop_failed
        ⟨StepFn.stateError, et, [], some ⟨some c, "after top-level value", b + 1⟩, b + 1⟩
        ⟨some c, "after top-level value", b + 1⟩ rfl rfl cs
      rcases hst with ⟨h, h2⟩ | h
      · subst h; subst h2
        simp [checkValidLoop, Scanner.doStep, stateEndTop, stateEndValue, topScanner, hc,
          Scanner.error, hf]
      · subst h
        simp [checkValidLoop, Scanner.doStep, stateEndTop, stateEndValue, topScanner, hc,
          Scanner.error, hf]

theorem checkValidLoop_number_end (st : StepFn) (hst : st = StepFn.state1 ∨ st = StepFn.state0)
    (b : Nat) (tl : Bytes) (htl : EndsNumber tl) :
    (checkValidLoop (topScanner st false b) tl = none ↔ tl.all isSpace = true) := by
  rcases htl with h | ⟨t, rest, h, ht⟩
  · subst h
    rcases hst with h | h <;> subst h <;>
      simp [checkValidLoop, Scanner.eof, topScanner, Scanner.doStep, state1, state0, isDigit,
        stateEndValue, stateEndTop, isSpace]
  · subst h
    have hd := notNumber_class t ht
    obtain ⟨h1, h2, h3, _, _⟩ := notNumber_ne t ht
    have key : checkValidLoop (topScanner st false b) (t :: rest) =
        checkValidLoop (topScanner StepFn.stateEndTop true b) (t :: rest) := by
      rcases hst with h | h <;> subst h <;>
        simp [checkValidLoop, topScanner, Scanner.doStep, state1, state0, hd, h1, h2, h3,
          stateEndValue, stateEndTop]
    rw [key]
    exact checkValidLoop_endTop (t :: rest) b StepFn.stateEndTop true (Or.inl ⟨rfl, rfl⟩)

theorem checkValidLoop_state1 (ds : Bytes) : ∀ b tl, ds.all isDigit = true → EndsNumber tl →
    (checkValidLoop (topScanner StepFn.state1 false b) (ds ++ tl) = none ↔
      tl.all isSpace = true) := by
  induction ds with
  | nil =>
    intro b tl _ htl
    exact checkValidLoop_number_end _ (Or.inl rfl) b tl htl
  | cons d ds ih =>
    intro b tl hds htl
    simp only [List.all_cons, Bool.and_eq_true] at hds
    have := ih (b + 1) tl hds.2 htl
    rw [← this]
    simp [checkValidLoop, topScanner, Scanner.doStep, state1, hds.1]

theorem checkValidLoop_state0 (ds : Bytes) (b : Nat) (tl : Bytes) (hds : ds.all isDigit = true)
    (htl : EndsNumber tl) :
    (checkValidLoop (topScanner StepFn.state0 false b) (ds ++ tl) = none ↔
      ds = [] ∧ tl.all isSpace = true) := by
  cases ds with
  | nil =>
    simpa using checkValidLoop_number_end _ (Or.inr rfl) b tl htl
  | cons d ds =>
    simp only [List.all_cons, Bool.and_eq_true] at hds
    obtain ⟨h1, h2, h3, _⟩ := digit_ne d hds.1
    have hsp := (digit_class d hds.1).2.1
    have hf := checkValidLoop_failed
      ⟨StepFn.stateError, true, [], some ⟨some d, "after top-level value", b + 1⟩, b + 1⟩
      ⟨some d, "after top-level value", b + 1⟩ rfl rfl (ds ++ tl)
    simp [checkValidLoop, topScanner, Scanner.doStep, state0, h1, h2, h3, stateEndValue,
      stateEndTop, hsp, Scanner.error, hf]

/-- The digits of a number, read after a minus sign or at the start of a
value (`st` is `stateNeg` or `stateBeginValue`). -/
theorem checkValidLoop_digits (st : StepFn) (hst : st = StepFn.stateNeg ∨ st = StepFn.stateBeginValue)
    (ds : Bytes) (b : Nat) (tl : Bytes) (hds : ds.all isDigit = true) (hne : ds ≠ [])
    (htl : EndsNumber tl) :
    (checkValidLoop (topScanner st false b) (ds ++ tl) = none ↔
      isJsonIntBody ds = true ∧ tl.all isSpace = true) := by
  cases ds with
  | nil => exact absurd rfl hne
  | cons d ds =>
    simp only [List.all_cons, Bool.and_eq_true] at hds
    obtain ⟨_, _, _, h45, _, h123, h91, h34, h116, h102, h110⟩ := digit_ne d hds.1
    have hsp := (digit_class d hds.1).2.1
    by_cases h0 : d = 48
    · subst h0
      have h := checkValidLoop_state0 ds (b + 1) tl hds.2 htl
      have e : checkValidLoop (topScanner st false b) (48 :: (ds ++ tl)) =
          checkValidLoop (topScanner StepFn.state0 false (b + 1)) (ds ++ tl) := by
        rcases hst with h | h <;> subst h <;>
          simp [checkValidLoop, topScanner, Scanner.doStep, stateNeg, stateBeginValue, isSpace]
      rw [List.cons_append, e, h]
      simp [isJsonIntBody, isDigit19]
    · have h19 : isDigit19 d = true := by
        rcases (digit_class d hds.1).2.2 with h | h
        · exact absurd h h0
        · exact h
      have h := checkValidLoop_state1 ds (b + 1) tl hds.2 htl
      have e : checkValidLoop (topScanner st false b) (d :: (ds ++ tl)) =
          checkValidLoop (topScanner StepFn.state1 false (b + 1)) (ds ++ tl) := by
        rcases hst with h | h <;> subst h <;>
          simp [checkValidLoop, topScanner, Scanner.doStep, stateNeg, stateBeginValue, hsp, h0,
            h19, h45, h123, h91, h34, h116, h102, h110]
      rw [List.cons_append, e, h]
      simp [isJsonIntBody, h0, h19, hds.2]

theorem checkValidLoop_spaces (ws : Bytes) : ∀ b rest, ws.all isSpace = true →
    checkValidLoop (topScanner StepFn.stateBeginValue false b) (ws ++ rest) =
      checkValidLoop (topScanner StepFn.stateBeginValue false (b + ws.length)) rest := by
  induction ws with
  | nil => intro b rest _; rfl
  | cons w ws ih =>
    intro b rest h
    simp only [List.all_cons, Bool.and_eq_true] at h
    have := ih (b + 1) rest h.2
    simp only [List.length_cons]
    rw [show b + (ws.length + 1) = b + 1 + ws.length by omega, ← this]
    simp [checkValidLoop, topScanner, Scanner.doStep, stateBeginValue, h.1]

/-! ### The decoder -/

/-- The scanner `Unmarshal` starts from. -/
theorem reset_zero : Scanner.zero.reset = topScanner StepFn.stateBeginValue false 0 := rfl

theorem stateBeginValue_not_skip (s : Scanner) {c : Byte} (hc : isSpace c = false) :
    (stateBeginValue s c).2 ≠ ScanCode.scanSkipSpace := by
  unfold stateBeginValue Scanner.pushParseState Scanner.error
  simp only [hc, Bool.false_eq_true, if_false]
  split_ifs <;> simp

theorem scanWhileLoop_spaces (ws : Bytes) : ∀ (i : Nat) (c : Byte) (tl : Bytes),
    ws.all isSpace = true → isSpace c = false →
    scanWhileLoop ScanCode.scanSkipSpace (topScanner StepFn.stateBeginValue false 0)
        (ws ++ c :: tl) i =
      ((stateBeginValue (topScanner StepFn.stateBeginValue false 0) c).1,
        some ((stateBeginValue (topScanner StepFn.stateBeginValue false 0) c).2,
          i + ws.length + 1)) := by
  induction ws with
  | nil =>
    intro i c tl _ hc
    have := stateBeginValue_not_skip (topScanner StepFn.stateBeginValue false 0) hc
    simp [scanWhileLoop, Scanner.doStep, topScanner] at this ⊢
    intro h
    exact absurd h this
  | cons w ws ih =>
    intro i c tl h hc
    simp only [List.all_cons, Bool.and_eq_true] at h
    have := ih (i + 1) c tl h.2 hc
    simp only [List.length_cons]
    rw [show i + (ws.length + 1) + 1 = i + 1 + ws.length + 1 by omega, ← this]
    simp [scanWhileLoop, topScanner, Scanner.doStep, stateBeginValue, h.1]

theorem scanWhileLoop_all_spaces (ws : Bytes) : ∀ (i : Nat), ws.all isSpace = true →
    scanWhileLoop ScanCode.scanSkipSpace (topScanner StepFn.stateBeginValue false 0) ws i =
      (topScanner StepFn.stateBeginValue false 0, none) := by
  induction ws with
  | nil => intro i _; rfl
  | cons w ws ih =>
    intro i h
    simp only [List.all_cons, Bool.and_eq_true] at h
    have := ih (i + 1) h.2
    simp [scanWhileLoop, topScanner, Scanner.doStep, stateBeginValue, h.1] at this ⊢
    exact this

theorem rescanLiteral_fields (d : DecodeState) :
    d.rescanLiteral.data = d.data ∧ d.rescanLiteral.savedError = d.savedError ∧
      d.rescanLiteral.off = litEnd d.data d.off + 1 := by
  have e : d.rescanLiteral =
      (if litEnd d.data d.off < d.data.length then
        { d with scan := (stateEndValue d.scan (d.data.getD (litEnd d.data d.off) 0)).1,
                 opcode := (stateEndValue d.scan (d.data.getD (litEnd d.data d.off) 0)).2,
                 off := litEnd d.data d.off + 1 }
       else { d with opcode := ScanCode.scanEnd, off := litEnd d.data d.off + 1 }) := rfl
  rw [e]
  by_cases h : litEnd d.data d.off < d.data.length
  · rw [if_pos h]; exact ⟨rfl, rfl, rfl⟩
  · rw [if_neg h]; exact ⟨rfl, rfl, rfl⟩

theorem rescanNumber_eq (cs : Bytes) : ∀ i,
    rescanNumber cs i = i + (cs.takeWhile isNumberByte).length := by
  induction cs with
  | nil => intro i; rfl
  | cons c cs ih =>
    intro i
    cases h : isNumberByte c with
    | true => simp [rescanNumber, h, List.takeWhile, ih]; omega
    | false => simp [rescanNumber, h, List.takeWhile]

theorem rescanString_ge (n : Nat) : ∀ (cs : Bytes) (i : Nat), cs.length ≤ n →
    i ≤ rescanString cs i := by
  induction n with
  | zero =>
    intro cs i h
    cases cs with
    | nil => simp [rescanString]
    | cons c cs => simp at h
  | succ n ih =>
    intro cs i h
    match cs with
    | [] => simp [rescanString]
    | [c] =>
      simp only [rescanString]
      split <;> omega
    | c :: c2 :: cs =>
      simp only [rescanString]
      simp only [List.length_cons] at h
      split
      · have := ih cs (i + 2) (by omega)
        omega
      · split
        · omega
        · have := ih (c2 :: cs) (i + 1) (by simp only [List.length_cons]; omega)
          omega

theorem litEnd_ge (data : Bytes) (off : Nat) : off ≤ litEnd data off := by
  unfold litEnd
  simp only
  split
  · exact rescanString_ge _ _ _ (le_refl _)
  · split
    · rw [rescanNumber_eq]; omega
    · split
      · omega
      · split
        · omega
        · split <;> omega

theorem take_length_takeWhile (p : Byte → Bool) (l : Bytes) :
    l.take (l.takeWhile p).length = l.takeWhile p := by
  induction l with
  | nil => rfl
  | cons a l ih =>
    cases h : p a with
    | true => simp [List.takeWhile, h, ih]
    | false => simp [List.takeWhile, h]

theorem getD_append_cons (ws : Bytes) (c : Byte) (tl : Bytes) :
    (ws ++ c :: tl).getD ws.length 0 = c := by
  induction ws with
  | nil => rfl
  | cons w ws ih => simpa using ih

theorem drop_append_cons (ws : Bytes) (c : Byte) (tl : Bytes) :
    (ws ++ c :: tl).drop (ws.length + 1) = tl := by
  induction ws with
  | nil => rfl
  | cons w ws ih => simp

theorem drop_append_cons0 (ws : Bytes) (c : Byte) (tl : Bytes) :
    (ws ++ c :: tl).drop ws.length = c :: tl := by
  induction ws with
  | nil => rfl
  | cons w ws ih => simp

/-- The decoder state after the leading spaces. -/
theorem scanWhile_spaces (ws : Bytes) (c : Byte) (tl : Bytes) (hws : ws.all isSpace = true)
    (hc : isSpace c = false) :
    (DecodeState.mk (ws ++ c :: tl) 0 ScanCode.scanContinue Scanner.zero.reset none).scanWhile
        ScanCode.scanSkipSpace =
      DecodeState.mk (ws ++ c :: tl) (ws.length + 1)
        (stateBeginValue (topScanner StepFn.stateBeginValue false 0) c).2
        (stateBeginValue (topScanner StepFn.stateBeginValue false 0) c).1 none := by
  unfold DecodeState.scanWhile
  simp only [List.drop_zero, reset_zero]
  rw [scanWhileLoop_spaces ws 0 c tl hws hc]
  simp

/-- A literal reaches `literalStore` whole: its first byte and what
`rescanLiteral` stepped over. -/
theorem value_literal (ws : Bytes) (c : Byte) (tl : Bytes) (sc : Scanner) (v : Int) :
    ∃ d1 : DecodeState, d1.savedError = none ∧
      (DecodeState.mk (ws ++ c :: tl) (ws.length + 1) ScanCode.scanBeginLiteral sc none).value v =
        d1.literalStore
          (c :: tl.take (litEnd (ws ++ c :: tl) (ws.length + 1) - (ws.length + 1))) v := by
  obtain ⟨h1, h2, h3⟩ := rescanLiteral_fields
    (DecodeState.mk (ws ++ c :: tl) (ws.length + 1) ScanCode.scanBeginLiteral sc none)
  refine ⟨_, h2, ?_⟩
  have hge := litEnd_ge (ws ++ c :: tl) (ws.length + 1)
  simp only at h1 h3
  simp only [DecodeState.value, DecodeState.readIndex, h1, h3, Nat.add_sub_cancel,
    drop_append_cons0]
  have e : litEnd (ws ++ c :: tl) (ws.length + 1) - ws.length =
      (litEnd (ws ++ c :: tl) (ws.length + 1) - (ws.length + 1)) + 1 := by omega
  rw [e, List.take_succ_cons]

theorem litEnd_number (ws : Bytes) (c : Byte) (tl : Bytes) (hc : isDigit c = true ∨ c = 45) :
    litEnd (ws ++ c :: tl) (ws.length + 1) - (ws.length + 1) =
      (tl.takeWhile isNumberByte).length := by
  have h34 : c ≠ 34 := by
    rcases hc with h | h
    · exact (digit_ne c h).2.2.2.2.2.2.2.1
    · subst h; decide
  have hnum : (isDigit c || decide (c = 45)) = true := by
    rcases hc with h | h
    · simp [h]
    · simp [h]
  unfold litEnd
  simp only [Nat.add_sub_cancel, getD_append_cons, drop_append_cons, if_neg h34, hnum, if_true]
  rw [rescanNumber_eq]
  omega

theorem checkValid_eq (ws : Bytes) (rest : Bytes) (hws : ws.all isSpace = true) :
    checkValid (ws ++ rest) =
      checkValidLoop (topScanner StepFn.stateBeginValue false ws.length) rest := by
  unfold checkValid
  rw [reset_zero, checkValidLoop_spaces ws 0 rest hws, Nat.zero_add]

theorem literalStore_number (d1 : DecodeState) (c : Byte) (rest : Bytes) (v : Int)
    (hc : isDigit c = true ∨ c = 45) :
    d1.literalStore (c :: rest) v =
      (if (ParseInt (c :: rest)).2.isSome then
        some (v, d1.saveError
          (GoError.jsonTypeError ⟨ascii "number " ++ (c :: rest), d1.readIndex⟩))
       else some ((ParseInt (c :: rest)).1, d1)) := by
  have hn : ¬ (c ≠ 45 ∧ (c < 48 ∨ c > 57)) := by
    rcases hc with h | h
    · unfold isDigit at h
      simp only [Bool.and_eq_true, decide_eq_true_eq] at h
      intro hh
      have h1 := h.1
      have h2 := h.2
      rcases hh.2 with h3 | h3
      · exact absurd h3 (not_lt.mpr h1)
      · exact absurd h3 (not_lt.mpr h2)
    · intro hh; exact hh.1 h
  have h110 : c ≠ 110 := by
    rcases hc with h | h
    · exact (digit_ne c h).2.2.2.2.2.2.2.2.2.2
    · subst h; decide
  have h116 : ¬ (c = 116 ∨ c = 102) := by
    rcases hc with h | h
    · have := digit_ne c h
      intro hh
      rcases hh with hh | hh
      · exact this.2.2.2.2.2.2.2.2.1 hh
      · exact this.2.2.2.2.2.2.2.2.2.1 hh
    · subst h; decide
  have h34 : c ≠ 34 := by
    rcases hc with h | h
    · exact (digit_ne c h).2.2.2.2.2.2.2.1
    · subst h; decide
  simp only [DecodeState.literalStore, if_neg h110, if_neg h116, if_neg h34, if_neg hn]

theorem stateBeginValue_number (s : Scanner) (c : Byte) (hc : isDigit c = true ∨ c = 45) :
    (stateBeginValue s c).2 = ScanCode.scanBeginLiteral := by
  rcases hc with h | h
  · obtain ⟨_, _, _, h45, _, h123, h91, h34, h116, h102, h110⟩ := digit_ne c h
    have hsp := (digit_class c h).2.1
    unfold stateBeginValue
    simp only [hsp, Bool.false_eq_true, if_false, h123, h91, h34, h45, h116, h102, h110]
    rcases (digit_class c h).2.2 with h0 | h19
    · simp [h0]
    · simp only [h19, if_true]
      split <;> rfl
  · subst h
    simp [stateBeginValue, isSpace]

/-- A number at the top level of valid JSON: the decoder hands the bytes of
the number to `ParseInt`. -/
theorem unmarshal_number (ws : Bytes) (c : Byte) (tl : Bytes) (i : Int)
    (hws : ws.all isSpace = true) (hc : isDigit c = true ∨ c = 45)
    (hv : checkValid (ws ++ c :: tl) = none) :
    ((ParseInt (c :: tl.takeWhile isNumberByte)).2 = none →
      jsonUnmarshalInt64 (ws ++ c :: tl) i =
        some ((ParseInt (c :: tl.takeWhile isNumberByte)).1, none)) ∧
    ((ParseInt (c :: tl.takeWhile isNumberByte)).2 ≠ none →
      ∃ e, jsonUnmarshalInt64 (ws ++ c :: tl) i = some (i, some e)) := by
  have hsp : isSpace c = false := by
    rcases hc with h | h
    · exact (digit_class c h).2.1
    · subst h; decide
  obtain ⟨d1, hd1, hval⟩ := value_literal ws c tl
    (stateBeginValue (topScanner StepFn.stateBeginValue false 0) c).1 i
  rw [litEnd_number ws c tl hc, take_length_takeWhile, literalStore_number d1 c _ i hc] at hval
  unfold jsonUnmarshalInt64
  simp only [hv]
  rw [scanWhile_spaces ws c tl hws hsp, stateBeginValue_number _ c hc, hval]
  constructor
  · intro h
    simp [h, hd1]
  · intro h
    cases hp : (ParseInt (c :: tl.takeWhile isNumberByte)).2 with
    | none => exact absurd hp h
    | some e => simp [DecodeState.saveError, hd1]

set_option maxRecDepth 100000 in
theorem digitByte_pos_table : ∀ d : Fin 10, 0 < d.val → isDigit19 (digitByte d.val) = true := by
  decide

/-- The decimal digits of a positive number start with a digit other than `0`. -/
theorem decimal_pos_shape (n : Nat) : 0 < n →
    ∃ c cs, decimal n = c :: cs ∧ isDigit19 c = true ∧ cs.all isDigit = true := by
  induction n using Nat.strong_induction_on with
  | _ n ih =>
    intro hpos
    by_cases h : n < 10
    · exact ⟨digitByte n, [], decimal_lt_ten h, digitByte_pos_table ⟨n, h⟩ hpos, rfl⟩
    · obtain ⟨c, cs, h1, h2, h3⟩ := ih (n / 10) (by omega) (by omega)
      have hm : n % 10 < 10 := Nat.mod_lt _ (by norm_num)
      refine ⟨c, cs ++ [digitByte (n % 10)], ?_, h2, ?_⟩
      · rw [decimal_step (by omega), h1]; rfl
      · simp [h3, (digitByte_table ⟨n % 10, hm⟩).1]

theorem isJsonIntBody_decimal (n : Nat) : isJsonIntBody (decimal n) = true := by
  by_cases h : n = 0
  · subst h; rfl
  · obtain ⟨c, cs, h1, h2, h3⟩ := decimal_pos_shape n (by omega)
    rw [h1]
    simp [isJsonIntBody, h2, h3]

theorem endsNumber_nil : EndsNumber [] := Or.inl rfl

theorem checkValid_decimal (n : Nat) : checkValid (decimal n) = none := by
  have h := checkValidLoop_digits StepFn.stateBeginValue (Or.inr rfl) (decimal n) 0 []
    (decimal_all_isDigit n) (decimal_ne_nil n) endsNumber_nil
  have e := checkValid_eq [] (decimal n) rfl
  simp only [List.nil_append, List.length_nil] at e
  rw [e]
  rw [List.append_nil] at h
  exact h.2 ⟨isJsonIntBody_decimal n, rfl⟩

theorem checkValid_neg_decimal (n : Nat) : checkValid (45 :: decimal n) = none := by
  have h := checkValidLoop_digits StepFn.stateNeg (Or.inl rfl) (decimal n) 1 []
    (decimal_all_isDigit n) (decimal_ne_nil n) endsNumber_nil
  have e := checkValid_eq [] (45 :: decimal n) rfl
  simp only [List.nil_append, List.length_nil] at e
  rw [e]
  rw [List.append_nil] at h
  have step : checkValidLoop (topScanner StepFn.stateBeginValue false 0) (45 :: decimal n) =
      checkValidLoop (topScanner StepFn.stateNeg false 1) (decimal n) := by
    simp [checkValidLoop, topScanner, Scanner.doStep, stateBeginValue, isSpace]
  rw [step]
  exact h.2 ⟨isJsonIntBody_decimal n, rfl⟩

theorem takeWhile_number_of_digits (tl : Bytes) (h : tl.all isDigit = true) :
    tl.takeWhile isNumberByte = tl := by
  induction tl with
  | nil => rfl
  | cons a tl ih =>
    simp only [List.all_cons, Bool.and_eq_true] at h
    simp [List.takeWhile, (digit_class a h.1).1, ih h.2]

/-- The text `FormatInt` produces, seen by the JSON decoder: valid JSON that
starts a number and is a number to its end. -/
theorem FormatInt_shape {v : Int} (h : IsInt64 v) :
    ∃ c tl, FormatInt v = c :: tl ∧ (isDigit c = true ∨ c = 45) ∧
      tl.takeWhile isNumberByte = tl ∧ checkValid (c :: tl) = none := by
  rw [FormatInt_eq h]
  by_cases hneg : v < 0
  · rw [if_pos hneg]
    exact ⟨45, decimal v.natAbs, rfl, Or.inr rfl,
      takeWhile_number_of_digits _ (decimal_all_isDigit _), checkValid_neg_decimal _⟩
  · rw [if_neg hneg]
    have hall := decimal_all_isDigit v.natAbs
    have hv := checkValid_decimal v.natAbs
    generalize decimal v.natAbs = ds at hall hv
    cases ds with
    | nil => simp [checkValid, checkValidLoop, Scanner.eof, Scanner.reset, Scanner.zero, Scanner.doStep, stateBeginValue, isSpace] at hv
    | cons c tl =>
      simp only [List.all_cons, Bool.and_eq_true] at hall
      exact ⟨c, tl, rfl, Or.inl hall.1, takeWhile_number_of_digits _ hall.2, hv⟩

/-- Decoding the JSON text of an `int64` gives the number back. -/
theorem jsonUnmarshalInt64_FormatInt {v : Int} (h : IsInt64 v) (i : Int) :
    jsonUnmarshalInt64 (FormatInt v) i = some (v, none) := by
  obtain ⟨c, tl, h1, h2, h3, h4⟩ := FormatInt_shape h
  have hp := ParseInt_FormatInt h
  rw [h1] at hp
  have := (unmarshal_number [] c tl i rfl h2 h4).1
  rw [h3, hp] at this
  rw [h1]
  exact this rfl

theorem setN_N (a : AttributeValue) (n : Option Bytes) : (a.setN n).N = n := by
  cases a; rfl

/-! ### Values other than numbers -/

theorem unmarshal_syntax_error (data : Bytes) (i : Int) (e : SyntaxError)
    (h : checkValid data = some e) :
    jsonUnmarshalInt64 data i = some (i, some (GoError.jsonSyntaxError e)) := by
  unfold jsonUnmarshalInt64
  simp only [h]

theorem unmarshal_spaces_only (ws : Bytes) (i : Int) (hws : ws.all isSpace = true) :
    ∃ e, jsonUnmarshalInt64 ws i = some (i, some e) := by
  have e := checkValid_eq ws [] hws
  rw [List.append_nil] at e
  have h : checkValid ws = some ⟨none, "unexpected end of JSON input", ws.length⟩ := by
    rw [e]
    simp [checkValidLoop, Scanner.eof, topScanner, Scanner.doStep, stateBeginValue, isSpace]
  exact ⟨_, unmarshal_syntax_error ws i _ h⟩

theorem literalStore_null (d1 : DecodeState) (rest : Bytes) (v : Int) :
    d1.literalStore (110 :: rest) v = some (v, d1) := by
  simp [DecodeState.literalStore]

/-- A `null` at the top level of valid JSON leaves an `int64` as it is. -/
theorem unmarshal_null (ws : Bytes) (tl : Bytes) (i : Int) (hws : ws.all isSpace = true)
    (hv : checkValid (ws ++ 110 :: tl) = none) :
    jsonUnmarshalInt64 (ws ++ 110 :: tl) i = some (i, none) := by
  obtain ⟨d1, hd1, hval⟩ := value_literal ws 110 tl
    (stateBeginValue (topScanner StepFn.stateBeginValue false 0) 110).1 i
  rw [literalStore_null] at hval
  unfold jsonUnmarshalInt64
  simp only [hv]
  rw [scanWhile_spaces ws 110 tl hws (by decide)]
  have hop : (stateBeginValue (topScanner StepFn.stateBeginValue false 0) 110).2 =
      ScanCode.scanBeginLiteral := by decide
  rw [hop, hval]
  simp [hd1]

theorem checkValidLoop_null (b : Nat) (tl : Bytes)
    (h : checkValidLoop (topScanner StepFn.stateBeginValue false b) (110 :: tl) = none) :
    ∃ ws2, tl = 117 :: 108 :: 108 :: ws2 ∧ ws2.all isSpace = true := by
  have hN : checkValidLoop (topScanner StepFn.stateBeginValue false b) (110 :: tl) =
      checkValidLoop (topScanner StepFn.stateN false (b + 1)) tl := by
    simp [checkValidLoop, topScanner, Scanner.doStep, stateBeginValue, isSpace]
  rw [hN] at h
  match tl with
  | [] => simp [checkValidLoop, Scanner.eof, topScanner, Scanner.doStep, stateLit, Scanner.error] at h
  | c1 :: t1 =>
    by_cases h1 : c1 = 117
    · subst h1
      have hNu : checkValidLoop (topScanner StepFn.stateN false (b + 1)) (117 :: t1) =
          checkValidLoop (topScanner StepFn.stateNu false (b + 2)) t1 := by
        simp [checkValidLoop, topScanner, Scanner.doStep, stateLit]
      rw [hNu] at h
      match t1 with
      | [] =>
        simp [checkValidLoop, Scanner.eof, topScanner, Scanner.doStep, stateLit, Scanner.error] at h
      | c2 :: t2 =>
        by_cases h2 : c2 = 108
        · subst h2
          have hNul : checkValidLoop (topScanner StepFn.stateNu false (b + 2)) (108 :: t2) =
              checkValidLoop (topScanner StepFn.stateNul false (b + 3)) t2 := by
            simp [checkValidLoop, topScanner, Scanner.doStep, stateLit]
          rw [hNul] at h
          match t2 with
          | [] =>
            simp [checkValidLoop, Scanner.eof, topScanner, Scanner.doStep, stateLit,
              Scanner.error] at h
          | c3 :: t3 =>
            by_cases h3 : c3 = 108
            · subst h3
              have hE : checkValidLoop (topScanner StepFn.stateNul false (b + 3)) (108 :: t3) =
                  checkValidLoop (topScanner StepFn.stateEndValue false (b + 4)) t3 := by
                simp [checkValidLoop, topScanner, Scanner.doStep, stateLit]
              rw [hE] at h
              exact ⟨t3, rfl,
                (checkValidLoop_endTop t3 (b + 4) StepFn.stateEndValue false (Or.inr rfl)).1 h⟩
            · simp [checkValidLoop, topScanner, Scanner.doStep, stateLit, Scanner.error, h3] at h
        · simp [checkValidLoop, topScanner, Scanner.doStep, stateLit, Scanner.error, h2] at h
    · simp [checkValidLoop, topScanner, Scanner.doStep, stateLit, Scanner.error, h1] at h

/-- A value that is neither a number nor `null` is an error for an `int64`:
invalid JSON is a syntax error, valid JSON a type error. -/
theorem unmarshal_not_number (ws : Bytes) (c : Byte) (tl : Bytes) (i : Int)
    (hws : ws.all isSpace = true) (hsp : isSpace c = false)
    (hnum : ¬ (isDigit c = true ∨ c = 45)) (h110 : c ≠ 110) :
    ∃ e, jsonUnmarshalInt64 (ws ++ c :: tl) i = some (i, some e) := by
  cases hv : checkValid (ws ++ c :: tl) with
  | some e => exact ⟨_, unmarshal_syntax_error _ i e hv⟩
  | none =>
    have hd : isDigit c = false := by
      cases h : isDigit c with
      | false => rfl
      | true => exact absurd (Or.inl h) hnum
    have h45 : c ≠ 45 := fun h => hnum (Or.inr h)
    have h19 : isDigit19 c = false := by
      cases h : isDigit19 c with
      | false => rfl
      | true => rw [(digit19_class c h).1] at hd; exact Bool.noConfusion hd
    have h48 : c ≠ 48 := by
      intro h; subst h; revert hd; decide
    obtain ⟨d1, hd1, hval⟩ := value_literal ws c tl
      (stateBeginValue (topScanner StepFn.stateBeginValue false 0) c).1 i
    unfold jsonUnmarshalInt64
    simp only [hv]
    rw [scanWhile_spaces ws c tl hws hsp]
    by_cases h123 : c = 123
    · subst h123
      exact ⟨_, rfl⟩
    by_cases h91 : c = 91
    · subst h91
      exact ⟨_, rfl⟩
    by_cases h34 : c = 34
    · subst h34
      have hop : (stateBeginValue (topScanner StepFn.stateBeginValue false 0) 34).2 =
          ScanCode.scanBeginLiteral := by decide
      rw [hop, hval]
      simp [DecodeState.literalStore, DecodeState.saveError, hd1]
    by_cases h116 : c = 116
    · subst h116
      have hop : (stateBeginValue (topScanner StepFn.stateBeginValue false 0) 116).2 =
          ScanCode.scanBeginLiteral := by decide
      rw [hop, hval]
      simp [DecodeState.literalStore, DecodeState.saveError, hd1]
    by_cases h102 : c = 102
    · subst h102
      have hop : (stateBeginValue (topScanner StepFn.stateBeginValue false 0) 102).2 =
          ScanCode.scanBeginLiteral := by decide
      rw [hop, hval]
      simp [DecodeState.literalStore, DecodeState.saveError, hd1]
    exfalso
    rw [checkValid_eq ws (c :: tl) hws] at hv
    simp [checkValidLoop, topScanner, Scanner.doStep, stateBeginValue, hsp, h123, h91, h34, h45,
      h48, h116, h102, h110, h19, Scanner.error] at hv

/-! ### Trimming -/

theorem dropWhile_head_false (p : Byte → Bool) (l : Bytes) (c : Byte) (tl : Bytes)
    (h : l.dropWhile p = c :: tl) : p c = false := by
  induction l with
  | nil => simp at h
  | cons a l ih =>
    cases ha : p a with
    | true =>
      rw [List.dropWhile_cons_of_pos ha] at h
      exact ih h
    | false =>
      rw [List.dropWhile_cons_of_neg (by simp [ha])] at h
      simp only [List.cons.injEq] at h
      rw [← h.1]; exact ha

theorem all_takeWhile (p : Byte → Bool) (l : Bytes) : (l.takeWhile p).all p = true := by
  induction l with
  | nil => rfl
  | cons a l ih =>
    cases ha : p a with
    | true => simp [List.takeWhile, ha, ih]
    | false => simp [List.takeWhile, ha]

theorem dropWhile_append_all (p : Byte → Bool) (ws : Bytes) (rest : Bytes)
    (h : ws.all p = true) : (ws ++ rest).dropWhile p = rest.dropWhile p := by
  induction ws with
  | nil => rfl
  | cons w ws ih =>
    simp only [List.all_cons, Bool.and_eq_true] at h
    rw [List.cons_append, List.dropWhile_cons_of_pos h.1]
    exact ih h.2

theorem dropWhile_of_head (p : Byte → Bool) (c : Byte) (tl : Bytes) (h : p c = false) :
    (c :: tl).dropWhile p = c :: tl :=
  List.dropWhile_cons_of_neg (by simp [h])

/-- Every input is its trimmed form between two runs of spaces. -/
theorem trimSpace_decomp (data : Bytes) :
    ∃ ws1 ws2, ws1.all isSpace = true ∧ ws2.all isSpace = true ∧
      data = ws1 ++ trimSpace data ++ ws2 := by
  refine ⟨data.takeWhile isSpace,
    ((data.dropWhile isSpace).reverse.takeWhile isSpace).reverse,
    all_takeWhile _ _, ?_, ?_⟩
  · rw [List.all_reverse]
    exact all_takeWhile _ _
  · unfold trimSpace
    rw [List.append_assoc, ← List.reverse_append, List.takeWhile_append_dropWhile,
      List.reverse_reverse, List.takeWhile_append_dropWhile]

/-- Trimming a text that neither starts nor ends with a space, put between
two runs of spaces, gives the text back. -/
theorem trimSpace_eq (ws1 lit ws2 : Bytes) (c : Byte) (tl : Bytes) (z : Byte) (ini : Bytes)
    (h1 : ws1.all isSpace = true) (h2 : ws2.all isSpace = true)
    (hc : lit = c :: tl) (hsc : isSpace c = false)
    (hz : lit = ini ++ [z]) (hsz : isSpace z = false) :
    trimSpace (ws1 ++ lit ++ ws2) = lit := by
  unfold trimSpace
  rw [List.append_assoc, dropWhile_append_all _ _ _ h1]
  have e1 : (lit ++ ws2).dropWhile isSpace = lit ++ ws2 := by
    rw [hc, List.cons_append]
    exact dropWhile_of_head _ _ _ hsc
  rw [e1, List.reverse_append]
  have h2r : ws2.reverse.all isSpace = true := by rw [List.all_reverse]; exact h2
  rw [dropWhile_append_all _ _ _ h2r]
  have e2 : lit.reverse.dropWhile isSpace = lit.reverse := by
    rw [hz, List.reverse_append]
    exact dropWhile_of_head _ _ _ hsz
  rw [e2, List.reverse_reverse]

/-! ### JSON integer literals -/

theorem isJsonIntBody_digits (body : Bytes) (h : isJsonIntBody body = true) :
    body ≠ [] ∧ body.all isDigit = true := by
  cases body with
  | nil => simp [isJsonIntBody] at h
  | cons c cs =>
    refine ⟨by simp, ?_⟩
    simp only [isJsonIntBody, Bool.or_eq_true, Bool.and_eq_true, decide_eq_true_eq,
      List.isEmpty_iff] at h
    rcases h with ⟨h1, h2⟩ | ⟨h1, h2⟩
    · subst h1; subst h2; rfl
    · simp [(digit19_class c h1).1, h2]

theorem afterSign_of_ne_plus (c : Byte) (rest : Bytes) (h : c ≠ 43) :
    afterSign c rest = if c = 45 then rest else c :: rest := by
  unfold afterSign
  rw [if_neg h]

/-- A JSON integer literal in the 64-bit range is a string `ParseInt` takes,
with the same value. -/
theorem jsonInt64Literal?_shape (lit : Bytes) (v : Int) (h : jsonInt64Literal? lit = some v) :
    ∃ c run, lit = c :: run ∧ (isDigit c = true ∨ c = 45) ∧ run.all isDigit = true ∧
      isJsonIntBody (if c = 45 then run else c :: run) = true ∧
      validInt64String? lit = some v := by
  cases lit with
  | nil => simp [jsonInt64Literal?, jsonIntLiteral?] at h
  | cons c rest =>
    unfold jsonInt64Literal? jsonIntLiteral? at h
    simp only at h
    by_cases hb : isJsonIntBody (if c = 45 then rest else c :: rest) = true
    · rw [if_pos hb] at h
      simp only at h
      obtain ⟨hne, hall⟩ := isJsonIntBody_digits _ hb
      have h43 : c ≠ 43 := by
        intro e
        subst e
        rw [if_neg (by decide)] at hall
        simp only [List.all_cons, Bool.and_eq_true] at hall
        exact absurd hall.1 (by decide)
      refine ⟨c, rest, rfl, ?_, ?_, hb, ?_⟩
      · by_cases h45 : c = 45
        · exact Or.inr h45
        · rw [if_neg h45] at hall
          simp only [List.all_cons, Bool.and_eq_true] at hall
          exact Or.inl hall.1
      · by_cases h45 : c = 45
        · rw [if_pos h45] at hall; exact hall
        · rw [if_neg h45] at hall
          simp only [List.all_cons, Bool.and_eq_true] at hall
          exact hall.2
      · rw [validInt64String?_cons, afterSign_of_ne_plus c rest h43, if_pos ⟨hne, hall⟩]
        exact h
    · rw [if_neg hb] at h
      exact Option.noConfusion h

theorem endsNumber_spaces (ws : Bytes) (h : ws.all isSpace = true) : EndsNumber ws := by
  cases ws with
  | nil => exact Or.inl rfl
  | cons w ws =>
    simp only [List.all_cons, Bool.and_eq_true] at h
    exact Or.inr ⟨w, ws, rfl, (space_class w h.1).2.1⟩

theorem takeWhile_number_append (run tl : Bytes) (h1 : run.all isDigit = true)
    (h2 : EndsNumber tl) : (run ++ tl).takeWhile isNumberByte = run := by
  induction run with
  | nil =>
    rcases h2 with h | ⟨t, rest, h, ht⟩
    · subst h; rfl
    · subst h; simp [List.takeWhile, ht]
  | cons a run ih =>
    simp only [List.all_cons, Bool.and_eq_true] at h1
    simp [List.takeWhile, (digit_class a h1.1).1, ih h1.2]

/-- A number is valid JSON exactly when it is a JSON integer literal followed
by nothing but spaces (for a number made of an optional minus sign and
digits, which is all `ParseInt` takes). -/
theorem checkValid_number (ws : Bytes) (c : Byte) (run tl : Bytes)
    (hws : ws.all isSpace = true) (hc : isDigit c = true ∨ c = 45)
    (hall : (if c = 45 then run else c :: run).all isDigit = true)
    (hne : (if c = 45 then run else c :: run) ≠ []) (htl : EndsNumber tl) :
    (checkValid (ws ++ c :: (run ++ tl)) = none ↔
      isJsonIntBody (if c = 45 then run else c :: run) = true ∧ tl.all isSpace = true) := by
  rw [checkValid_eq ws _ hws]
  by_cases h45 : c = 45
  · subst h45
    simp only [if_true] at hall hne ⊢
    have step : checkValidLoop (topScanner StepFn.stateBeginValue false ws.length)
        (45 :: (run ++ tl)) =
        checkValidLoop (topScanner StepFn.stateNeg false (ws.length + 1)) (run ++ tl) := by
      simp [checkValidLoop, topScanner, Scanner.doStep, stateBeginValue, isSpace]
    rw [step]
    exact checkValidLoop_digits StepFn.stateNeg (Or.inl rfl) run _ tl hall hne htl
  · simp only [if_neg h45] at hall hne ⊢
    have := checkValidLoop_digits StepFn.stateBeginValue (Or.inr rfl) (c :: run) ws.length tl
      hall hne htl
    rw [List.cons_append] at this
    exact this

/-- Decoding a JSON integer literal in the 64-bit range, with any spaces
around it, gives its value. -/
theorem unmarshal_literal (data : Bytes) (v i : Int)
    (h : jsonInt64Literal? (trimSpace data) = some v) :
    jsonUnmarshalInt64 data i = some (v, none) := by
  obtain ⟨ws1, ws2, h1, h2, hd⟩ := trimSpace_decomp data
  obtain ⟨c, run, hlit, hc, hrun, hbody, hvalid⟩ := jsonInt64Literal?_shape _ v h
  obtain ⟨hne, hall⟩ := isJsonIntBody_digits _ hbody
  have hdata : data = ws1 ++ c :: (run ++ ws2) := by
    rw [hd, hlit]; simp
  have hv : checkValid (ws1 ++ c :: (run ++ ws2)) = none :=
    (checkValid_number ws1 c run ws2 h1 hc hall hne (endsNumber_spaces ws2 h2)).2 ⟨hbody, h2⟩
  have hp : ParseInt (c :: run) = (v, none) := by
    have := (ParseInt_spec (trimSpace data)).1 v hvalid
    rw [hlit] at this
    exact this
  have := (unmarshal_number ws1 c (run ++ ws2) i h1 hc hv).1
  rw [takeWhile_number_append run ws2 hrun (endsNumber_spaces ws2 h2), hp] at this
  rw [hdata]
  exact this rfl

theorem number_last (c : Byte) (run : Bytes)
    (hall : (if c = 45 then run else c :: run).all isDigit = true)
    (hne : (if c = 45 then run else c :: run) ≠ []) :
    ∃ ini z, c :: run = ini ++ [z] ∧ isSpace z = false := by
  rcases List.eq_nil_or_concat run with h | ⟨L, b, h⟩
  · subst h
    by_cases h45 : c = 45
    · rw [if_pos h45] at hne; exact absurd rfl hne
    · rw [if_neg h45] at hall
      simp only [List.all_cons, Bool.and_eq_true] at hall
      exact ⟨[], c, rfl, (digit_class c hall.1).2.1⟩
  · rw [List.concat_eq_append] at h
    subst h
    have hb : isDigit b = true := by
      by_cases h45 : c = 45
      · rw [if_pos h45] at hall
        simp only [List.all_append, List.all_cons, Bool.and_eq_true] at hall
        exact hall.2.1
      · rw [if_neg h45] at hall
        simp only [List.all_cons, List.all_append, Bool.and_eq_true] at hall
        exact hall.2.2.1
    exact ⟨c :: L, b, rfl, (digit_class b hb).2.1⟩

theorem endsNumber_dropWhile (tl : Bytes) : EndsNumber (tl.dropWhile isNumberByte) := by
  cases h : tl.dropWhile isNumberByte with
  | nil => exact Or.inl rfl
  | cons t rest => exact Or.inr ⟨t, rest, rfl, dropWhile_head_false _ _ _ _ h⟩

/-- An input that, trimmed, is neither `null` nor a JSON integer literal in
the 64-bit range is an error for an `int64`, which keeps its value. -/
theorem unmarshal_error (data : Bytes) (i : Int) (hnull : trimSpace data ≠ ascii "null")
    (hlit : jsonInt64Literal? (trimSpace data) = none) :
    ∃ e, jsonUnmarshalInt64 data i = some (i, some e) := by
  have hd : data = data.takeWhile isSpace ++ data.dropWhile isSpace :=
    (List.takeWhile_append_dropWhile isSpace data).symm
  have hws := all_takeWhile isSpace data
  generalize data.takeWhile isSpace = ws at hd hws
  cases hr : data.dropWhile isSpace with
  | nil =>
    rw [hr, List.append_nil] at hd
    rw [hd]
    exact unmarshal_spaces_only ws i hws
  | cons c tl =>
    have hsp := dropWhile_head_false _ _ _ _ hr
    rw [hr] at hd
    cases hv : checkValid data with
    | some e => exact ⟨_, unmarshal_syntax_error data i e hv⟩
    | none =>
      by_cases h110 : c = 110
      · exfalso
        subst h110
        rw [hd, checkValid_eq ws _ hws] at hv
        obtain ⟨ws2, htl, hws2⟩ := checkValidLoop_null _ _ hv
        apply hnull
        have e : ascii "null" = [110, 117, 108, 108] := by decide
        have := trimSpace_eq ws [110, 117, 108, 108] ws2 110 [117, 108, 108] 108 [110, 117, 108]
          hws hws2 rfl (by decide) rfl (by decide)
        rw [hd, htl, e]
        simpa using this
      · by_cases hnum : isDigit c = true ∨ c = 45
        · rw [hd] at hv
          obtain ⟨hok, herr⟩ := unmarshal_number ws c tl i hws hnum hv
          cases hp : (ParseInt (c :: tl.takeWhile isNumberByte)).2 with
          | some e =>
            rw [hd]
            exact herr (by rw [hp]; simp)
          | none =>
            exfalso
            have htl : tl = tl.takeWhile isNumberByte ++ tl.dropWhile isNumberByte :=
              (List.takeWhile_append_dropWhile isNumberByte tl).symm
            have hends := endsNumber_dropWhile tl
            generalize tl.takeWhile isNumberByte = run at htl hp
            generalize tl.dropWhile isNumberByte = tl2 at htl hends
            cases hvs : validInt64String? (c :: run) with
            | none =>
              obtain ⟨e, he⟩ := (ParseInt_spec (c :: run)).2 hvs
              rw [hp] at he
              exact Option.noConfusion he
            | some v =>
              have h43 : c ≠ 43 := by
                rcases hnum with h | h
                · exact (digit_ne c h).2.2.2.2.1
                · subst h; decide
              have hvs2 := hvs
              rw [validInt64String?_cons, afterSign_of_ne_plus c run h43] at hvs2
              by_cases hbody : (if c = 45 then run else c :: run) ≠ [] ∧
                  (if c = 45 then run else c :: run).all isDigit = true
              · rw [if_pos hbody] at hvs2
                rw [htl] at hv
                obtain ⟨hjb, hsp2⟩ :=
                  (checkValid_number ws c run tl2 hws hnum hbody.2 hbody.1 hends).1 hv
                obtain ⟨ini, z, hz, hsz⟩ := number_last c run hbody.2 hbody.1
                have htrim : trimSpace data = c :: run := by
                  rw [hd, htl]
                  have := trimSpace_eq ws (c :: run) tl2 c run z ini hws hsp2 rfl hsp hz hsz
                  simpa using this
                rw [htrim] at hlit
                unfold jsonInt64Literal? jsonIntLiteral? at hlit
                simp only [hjb, if_true] at hlit
                rw [hvs2] at hlit
                exact Option.noConfusion hlit
              · rw [if_neg hbody] at hvs2
                exact Option.noConfusion hvs2
        · rw [hd]
          exact unmarshal_not_number ws c tl i hws hsp hnum h110

theorem tdiv_second (d : Int) :
    d.tdiv 1000000000 = if 0 ≤ d then d / 1000000000 else -((-d) / 1000000000) := by
  by_cases h : 0 ≤ d
  · rw [if_pos h, Int.tdiv_eq_ediv h (by norm_num)]
  · rw [if_neg h]
    have : d = -(-d) := by omega
    conv_lhs => rw [this]
    rw [Int.neg_tdiv, Int.tdiv_eq_ediv (by omega) (by norm_num)]

theorem unixToInternal_eq : unixToInternal = 62135596800 := by decide

theorem internalToUnix_eq : internalToUnix = -62135596800 := by decide

theorem land_mask_monotonic (w : Nat) : (w &&& nsecMask) &&& hasMonotonic = 0 := by
  rw [Nat.land_assoc]
  have : nsecMask &&& hasMonotonic = 0 := by decide
  rw [this, Nat.and_zero]

theorem land_mask_mask (w : Nat) : (w &&& nsecMask) &&& nsecMask = w &&& nsecMask := by
  rw [Nat.land_assoc, Nat.and_self]

theorem stripMono_sec (t : Time) : t.stripMono.sec = t.sec := by
  unfold Time.stripMono
  by_cases h : t.wall &&& hasMonotonic ≠ 0
  · rw [if_pos h]
    simp only [Time.sec, land_mask_monotonic, ne_eq, not_true_eq_false, if_false]
  · rw [if_neg h]

theorem stripMono_nsec (t : Time) : t.stripMono.nsec = t.nsec := by
  unfold Time.stripMono
  by_cases h : t.wall &&& hasMonotonic ≠ 0
  · rw [if_pos h]
    simp only [Time.nsec, land_mask_mask]
  · rw [if_neg h]

theorem setLoc_sec (t : Time) (l : Location) : (t.setLoc l).sec = t.sec := by
  have := stripMono_sec t
  unfold Time.setLoc
  unfold Time.sec at this ⊢
  exact this

theorem setLoc_nsec (t : Time) (l : Location) : (t.setLoc l).nsec = t.nsec := by
  have := stripMono_nsec t
  unfold Time.setLoc
  unfold Time.nsec at this ⊢
  exact this

theorem timeUnix_zero_nsec (s : Int) :
    timeUnix s 0 = ⟨0, wrapInt64 (s + unixToInternal), some Location.Local⟩ := by
  unfold timeUnix
  rw [if_neg (by omega)]
  rfl

theorem isInt64_sec (t : Time) (he : IsInt64 t.ext) : IsInt64 t.sec := by
  unfold Time.sec
  split
  · exact isInt64_wrapInt64 _
  · exact he

theorem setLoc_Location (t : Time) (loc : Location) : (t.setLoc loc).Location = loc := by
  unfold Time.setLoc Time.Location
  by_cases h : loc = Location.UTC
  · simp [h]
  · simp [h]

/-! ## The claims -/

/-- C1: JSON round trip. For every 64-bit signed integer `v` and every prior
receiver value `s0`, `MarshalJSON` of `Seconds(v)` returns no error, and
`UnmarshalJSON` on the bytes it returns gives no error and leaves the
receiver equal to `Seconds(v)`. -/
theorem json_round_trip (v s0 : Int) (hv : IsInt64 v) :
    (Seconds.MarshalJSON v).2 = none ∧
      Seconds.UnmarshalJSON s0 (Seconds.MarshalJSON v).1 = some (v, none) := by
  refine ⟨rfl, ?_⟩
  unfold Seconds.UnmarshalJSON Seconds.MarshalJSON jsonMarshalInt64
  simp only [jsonUnmarshalInt64_FormatInt hv 0]
  rfl

theorem json_round_trip_witness :
    IsInt64 (-1234567890123) ∧
      Seconds.UnmarshalJSON 7 (Seconds.MarshalJSON (-1234567890123)).1 =
        some (-1234567890123, none) :=
  ⟨by decide, (json_round_trip (-1234567890123) 7 (by decide)).2⟩

/-- C2: DynamoDB round trip. For every 64-bit signed integer `v`, every
record `av` and every prior receiver value `s0`,
`MarshalDynamoDBAttributeValue` of `Seconds(v)` into `av` returns no error
and sets the numeric field, and `UnmarshalDynamoDBAttributeValue` on the
resulting record returns no error and leaves the receiver equal to
`Seconds(v)`. -/
theorem dynamodb_round_trip (v s0 : Int) (av : AttributeValue) (hv : IsInt64 v) :
    Seconds.MarshalDynamoDBAttributeValue v (some av) =
        some (av.setN (some (FormatInt v)), none) ∧
      Seconds.UnmarshalDynamoDBAttributeValue s0 (some (av.setN (some (FormatInt v)))) =
        (v, none) := by
  refine ⟨rfl, ?_⟩
  unfold Seconds.UnmarshalDynamoDBAttributeValue
  simp only [setN_N, ParseInt_FormatInt hv]

theorem dynamodb_round_trip_witness :
    IsInt64 9223372036854775807 ∧
      Seconds.UnmarshalDynamoDBAttributeValue 5
          (some (AttributeValue.empty.setN (some (FormatInt 9223372036854775807)))) =
        (9223372036854775807, none) :=
  ⟨by decide, (dynamodb_round_trip 9223372036854775807 5 AttributeValue.empty (by decide)).2⟩

/-- C3 (what the code does): for every prior receiver value `s0`,
`UnmarshalJSON` with the literal `null` returns no error and leaves the
receiver holding 0, not `s0`: `json.Unmarshal` leaves the local `var i int64`
at zero, and the method then assigns it to the receiver. A receiver holding
5 ends up holding 0. -/
theorem unmarshalJSON_null_resets :
    (∀ s0 : Int, Seconds.UnmarshalJSON s0 (ascii "null") = some (0, none)) ∧
      Seconds.UnmarshalJSON 5 (ascii "null") ≠ some (5, none) := by
  have h : jsonUnmarshalInt64 (ascii "null") 0 = some (0, none) := by decide
  refine ⟨fun s0 => ?_, by decide⟩
  unfold Seconds.UnmarshalJSON
  rw [h]
  rfl

/-- C4: for every prior receiver value `s0`,
`UnmarshalDynamoDBAttributeValue` called with a nil record, or with a record
whose field `N` is nil, returns no error and leaves the receiver equal to
`s0`, whatever the other fields of the record hold. -/
theorem dynamodb_unmarshal_absent (s0 : Int) :
    Seconds.UnmarshalDynamoDBAttributeValue s0 none = (s0, none) ∧
      ∀ (b : Bytes) (bool : Option Bool) (bs : List Bytes) (l : List (Option AttributeValue))
        (m : List (Bytes × Option AttributeValue)) (ns : List (Option Bytes))
        (null : Option Bool) (s : Option Bytes) (ss : List (Option Bytes)),
        Seconds.UnmarshalDynamoDBAttributeValue s0
          (some (AttributeValue.mk b bool bs l m none ns null s ss)) = (s0, none) :=
  ⟨rfl, fun _ _ _ _ _ _ _ _ _ => rfl⟩

/-- C5: for every record whose field `N` is set to a string `n`,
`UnmarshalDynamoDBAttributeValue` returns an error if and only if `n` is not
a valid base-10 signed 64-bit integer string (an optional sign, then one or
more decimal digits, denoting a value in `[-2^63, 2^63 - 1]`; so not the
empty string, not a string with another character such as `bad`, not a
number out of range); when `n` is valid it returns no error and sets the
receiver to the integer `n` denotes. -/
theorem dynamodb_unmarshal_number (s0 : Int) (av : AttributeValue) (n : Bytes)
    (hN : av.N = some n) :
    ((Seconds.UnmarshalDynamoDBAttributeValue s0 (some av)).2.isSome = true ↔
        validInt64String? n = none) ∧
      (∀ v, validInt64String? n = some v →
        Seconds.UnmarshalDynamoDBAttributeValue s0 (some av) = (v, none)) := by
  obtain ⟨h1, h2⟩ := ParseInt_spec n
  unfold Seconds.UnmarshalDynamoDBAttributeValue
  simp only [hN]
  cases hv : validInt64String? n with
  | none =>
    obtain ⟨e, he⟩ := h2 hv
    simp [he]
  | some v =>
    have := h1 v hv
    simp [this]

theorem dynamodb_unmarshal_number_witness :
    (Seconds.UnmarshalDynamoDBAttributeValue 5
        (some (AttributeValue.ofN (ascii "bad")))).2.isSome = true ∧
      (Seconds.UnmarshalDynamoDBAttributeValue 5
        (some (AttributeValue.ofN (ascii "")))).2.isSome = true ∧
      (Seconds.UnmarshalDynamoDBAttributeValue 5
        (some (AttributeValue.ofN (ascii "9223372036854775808")))).2.isSome = true ∧
      Seconds.UnmarshalDynamoDBAttributeValue 5
        (some (AttributeValue.ofN (ascii "-9223372036854775808"))) =
          (-9223372036854775808, none) :=
  ⟨(dynamodb_unmarshal_number 5 (AttributeValue.ofN (ascii "bad")) (ascii "bad") rfl).1.2
      (by decide),
   (dynamodb_unmarshal_number 5 (AttributeValue.ofN (ascii "")) (ascii "") rfl).1.2 (by decide),
   (dynamodb_unmarshal_number 5 (AttributeValue.ofN (ascii "9223372036854775808"))
      (ascii "9223372036854775808") rfl).1.2 (by decide),
   (dynamodb_unmarshal_number 5 (AttributeValue.ofN (ascii "-9223372036854775808"))
      (ascii "-9223372036854775808") rfl).2 _ (by decide)⟩

/-- C6 as stated fails: the input ` 1` (a space, then `1`) is neither the
literal `null` nor a valid integer literal, yet `UnmarshalJSON` returns no
error on it and sets the receiver to 1. -/
theorem unmarshalJSON_padded_accepted :
    ascii " 1" ≠ ascii "null" ∧ jsonInt64Literal? (ascii " 1") = none ∧
      Seconds.UnmarshalJSON 0 (ascii " 1") = some (1, none) := by
  decide

/-- C6 (amended): JSON whitespace around the value is ignored. For every
input byte string, `UnmarshalJSON` returns an error whenever the input
without its leading and trailing JSON whitespace is neither the literal
`null` nor a valid integer literal in the signed 64-bit range; and for every
input that is a valid in-range integer literal, alone or between JSON
whitespace, it returns no error and sets the receiver to that integer. -/
theorem unmarshalJSON_errors (data : Bytes) (s0 : Int) :
    (trimSpace data ≠ ascii "null" → jsonInt64Literal? (trimSpace data) = none →
        ∃ e, Seconds.UnmarshalJSON s0 data = some (s0, some e)) ∧
      (∀ v, jsonInt64Literal? (trimSpace data) = some v →
        Seconds.UnmarshalJSON s0 data = some (v, none)) := by
  constructor
  · intro h1 h2
    obtain ⟨e, he⟩ := unmarshal_error data 0 h1 h2
    refine ⟨e, ?_⟩
    unfold Seconds.UnmarshalJSON
    rw [he]
    rfl
  · intro v h
    unfold Seconds.UnmarshalJSON
    rw [unmarshal_literal data v 0 h]
    rfl

theorem unmarshalJSON_errors_witness :
    (∃ e, Seconds.UnmarshalJSON 7 (ascii "bad") = some (7, some e)) ∧
      (∃ e, Seconds.UnmarshalJSON 7 (ascii "\"12\"") = some (7, some e)) ∧
      (∃ e, Seconds.UnmarshalJSON 7 (ascii "\x7b\"a\":1\x7d") = some (7, some e)) ∧
      (∃ e, Seconds.UnmarshalJSON 7 (ascii "[1]") = some (7, some e)) ∧
      (∃ e, Seconds.UnmarshalJSON 7 (ascii "true") = some (7, some e)) ∧
      (∃ e, Seconds.UnmarshalJSON 7 (ascii "1.5") = some (7, some e)) ∧
      (∃ e, Seconds.UnmarshalJSON 7 (ascii "1e3") = some (7, some e)) ∧
      (∃ e, Seconds.UnmarshalJSON 7 (ascii "9223372036854775808") = some (7, some e)) ∧
      Seconds.UnmarshalJSON 7 (ascii "-9223372036854775808") =
        some (-9223372036854775808, none) ∧
      Seconds.UnmarshalJSON 7 (ascii " 123\n") = some (123, none) :=
  ⟨(unmarshalJSON_errors (ascii "bad") 7).1 (by decide) (by decide),
   (unmarshalJSON_errors (ascii "\"12\"") 7).1 (by decide) (by decide),
   (unmarshalJSON_errors (ascii "\x7b\"a\":1\x7d") 7).1 (by decide) (by decide),
   (unmarshalJSON_errors (ascii "[1]") 7).1 (by decide) (by decide),
   (unmarshalJSON_errors (ascii "true") 7).1 (by decide) (by decide),
   (unmarshalJSON_errors (ascii "1.5") 7).1 (by decide) (by decide),
   (unmarshalJSON_errors (ascii "1e3") 7).1 (by decide) (by decide),
   (unmarshalJSON_errors (ascii "9223372036854775808") 7).1 (by decide) (by decide),
   (unmarshalJSON_errors (ascii "-9223372036854775808") 7).2 _ (by decide),
   (unmarshalJSON_errors (ascii " 123\n") 7).2 _ (by decide)⟩

/-- C7: for every `Seconds` value `s` and every duration `d` (an `int64`
count of nanoseconds), `s.Add(d)` is `s + q` in 64-bit wrap-around
arithmetic, where `q` is `d / 10^9` truncated toward zero: `d = q * 10^9 + r`
with `|r| < 10^9` and `r` of the sign of `d`. So `Add` is the plain sum when
that fits, `s.Add(d) = s` whenever `|d| < 1s`, `Seconds(123).Add(1s) = 124`,
`Seconds(123).Add(1500ms) = 124` (not rounded) and
`Seconds(123).Add(-1500ms) = 122` (not floored). -/
theorem add_truncates (s d : Int) (hs : IsInt64 s) (hd : IsInt64 d) :
    (∃ q r : Int, d = q * 1000000000 + r ∧ -1000000000 < r ∧ r < 1000000000 ∧
        (0 ≤ d → 0 ≤ r) ∧ (d ≤ 0 → r ≤ 0) ∧
        Seconds.Add s d = wrapInt64 (s + q) ∧ (IsInt64 (s + q) → Seconds.Add s d = s + q)) ∧
      (-1000000000 < d → d < 1000000000 → Seconds.Add s d = s) ∧
      IsInt64 (Seconds.Add s d) ∧
      Seconds.Add 123 1000000000 = 124 ∧ Seconds.Add 123 1500000000 = 124 ∧
      Seconds.Add 123 (-1500000000) = 122 := by
  unfold IsInt64 minInt64 maxInt64 at hs hd
  have hq := tdiv_second d
  refine ⟨⟨d.tdiv 1000000000, d - d.tdiv 1000000000 * 1000000000, by ring, ?_, ?_, ?_, ?_, rfl,
    ?_⟩, ?_, isInt64_wrapInt64 _, by decide, by decide, by decide⟩
  · rw [hq]; split <;> omega
  · rw [hq]; split <;> omega
  · intro h; rw [hq, if_pos h]; omega
  · intro h; rw [hq]; split <;> omega
  · intro h
    unfold Seconds.Add timeSecond
    exact wrapInt64_of_isInt64 h
  · intro h1 h2
    show ((wrapInt64 (s + d.tdiv 1000000000) : Int) = (s : Int))
    unfold wrapInt64
    rw [hq]
    split <;> omega

theorem add_truncates_witness :
    IsInt64 123 ∧ IsInt64 (-999999999) ∧ Seconds.Add 123 (-999999999) = 123 :=
  ⟨by decide, by decide,
    (add_truncates 123 (-999999999) (by decide) (by decide)).2.1 (by decide) (by decide)⟩

/-- C8: for every `Seconds` value `s` and every location `loc` (UTC, the
local one, any fixed offset), `s.TimeInLocation(loc)` returns a timestamp and
`From` of it is `s`: the location never affects the underlying integer. -/
theorem from_timeInLocation (s : Int) (loc : Location) (hs : IsInt64 s) :
    ∃ t, Seconds.TimeInLocation s (some loc) = some t ∧ From t = s := by
  refine ⟨(timeUnix s 0).setLoc loc, rfl, ?_⟩
  unfold From Time.Unix Time.unixSec
  rw [setLoc_sec, timeUnix_zero_nsec]
  have h0 : (0 : Nat) &&& hasMonotonic = 0 := by decide
  simp only [Time.sec, h0, ne_eq, not_true_eq_false, if_false]
  rw [unixToInternal_eq, internalToUnix_eq]
  unfold IsInt64 minInt64 maxInt64 at hs
  show ((wrapInt64 (wrapInt64 (s + 62135596800) + -62135596800) : Int) = (s : Int))
  unfold wrapInt64
  omega

theorem from_timeInLocation_witness :
    IsInt64 123 ∧
      ∃ t, Seconds.TimeInLocation 123 (some (Location.Fixed "EST" (-18000))) = some t ∧
        From t = 123 :=
  ⟨by decide, from_timeInLocation 123 (Location.Fixed "EST" (-18000)) (by decide)⟩

/-- C9 as stated fails: the instant half a second before the epoch,
`time.Unix(0, -500000000)`, lies `-500000000` nanoseconds from the epoch;
truncating `-500000000 / 10^9` toward zero gives 0, but `From` returns -1. -/
theorem from_half_second_before_epoch :
    nanosSinceEpoch (timeUnix 0 (-500000000)) = -500000000 ∧
      Int.tdiv (-500000000) 1000000000 = 0 ∧
      From (timeUnix 0 (-500000000)) = -1 := by
  decide

/-- C9 (amended): for every timestamp `t` (nanosecond field below `10^9`, as
in every `time.Time`) lying `n` nanoseconds from the Unix epoch, `From(t)` is
`n / 10^9` rounded toward negative infinity (the floor), not truncated toward
zero, taken as an `int64` by two's-complement wrap-around; so it is the floor
itself whenever the floor fits `int64`. The floor and the truncation agree at
and after the epoch; before it an instant that is not on a whole second maps
one second lower. Putting `t` in any location changes neither `n` nor
`From(t)`. -/
theorem from_floors (t : Time) (hn : t.nsec < 1000000000) :
    From t = wrapInt64 (Int.fdiv (nanosSinceEpoch t) 1000000000) ∧
      (IsInt64 (Int.fdiv (nanosSinceEpoch t) 1000000000) →
        From t = Int.fdiv (nanosSinceEpoch t) 1000000000) ∧
      (0 ≤ nanosSinceEpoch t →
        From t = wrapInt64 (Int.tdiv (nanosSinceEpoch t) 1000000000)) ∧
      ∀ loc : Location, ∃ t1, t.In (some loc) = some t1 ∧
        nanosSinceEpoch t1 = nanosSinceEpoch t ∧ From t1 = From t := by
  have hF : From t = wrapInt64 (t.sec + internalToUnix) := rfl
  have hfl : (nanosSinceEpoch t) / 1000000000 = t.sec + internalToUnix := by
    unfold nanosSinceEpoch
    omega
  refine ⟨?_, ?_, ?_, ?_⟩
  · rw [Int.fdiv_eq_ediv _ (by norm_num), hfl, hF]
  · intro h
    rw [Int.fdiv_eq_ediv _ (by norm_num), hfl] at h ⊢
    rw [hF]
    exact wrapInt64_of_isInt64 h
  · intro h
    rw [Int.tdiv_eq_ediv h (by norm_num), hfl, hF]
  · intro loc
    refine ⟨t.setLoc loc, rfl, ?_, ?_⟩
    · unfold nanosSinceEpoch
      rw [setLoc_sec, setLoc_nsec]
    · unfold From Time.Unix Time.unixSec
      rw [setLoc_sec]

theorem from_floors_witness :
    (timeUnix 0 (-500000000)).nsec < 1000000000 ∧
      From (timeUnix 0 (-500000000)) =
        wrapInt64 (Int.fdiv (nanosSinceEpoch (timeUnix 0 (-500000000))) 1000000000) ∧
      ((timeUnix 9223372036854775807 0).setLoc Location.UTC).nsec < 1000000000 ∧
      From ((timeUnix 9223372036854775807 0).setLoc Location.UTC) =
        wrapInt64 (Int.fdiv
          (nanosSinceEpoch ((timeUnix 9223372036854775807 0).setLoc Location.UTC)) 1000000000) :=
  ⟨by decide, (from_floors (timeUnix 0 (-500000000)) (by decide)).1, by decide,
    (from_floors ((timeUnix 9223372036854775807 0).setLoc Location.UTC) (by decide)).1⟩

/-- C10: for every `Seconds` value `s`, `MarshalJSON` returns no error and
its output is exactly the bare decimal representation of the integer: a `-`
when `s` is negative, then the decimal digits of `|s|` with no leading zero
(a single `0` for zero) and nothing else, so the output is a JSON integer
literal of value `s`; 123 encodes as the three bytes `123`. -/
theorem marshalJSON_decimal (s : Int) (hs : IsInt64 s) :
    (Seconds.MarshalJSON s).2 = none ∧
      (Seconds.MarshalJSON s).1 =
        (if s < 0 then 45 :: decimal s.natAbs else decimal s.natAbs) ∧
      isJsonIntBody (decimal s.natAbs) = true ∧
      decimalValue (decimal s.natAbs) = s.natAbs ∧
      jsonInt64Literal? (Seconds.MarshalJSON s).1 = some s ∧
      (Seconds.MarshalJSON 123).1 = [49, 50, 51] := by
  have hfmt : (Seconds.MarshalJSON s).1 =
      (if s < 0 then 45 :: decimal s.natAbs else decimal s.natAbs) := FormatInt_eq hs
  have hb := isJsonIntBody_decimal s.natAbs
  have hval := decimalValue_decimal s.natAbs
  refine ⟨rfl, hfmt, hb, hval, ?_, by decide⟩
  rw [hfmt]
  unfold jsonInt64Literal? jsonIntLiteral?
  by_cases hneg : s < 0
  · rw [if_pos hneg]
    simp only [if_true, hb, hval]
    have e : -((s.natAbs : Nat) : Int) = s := by omega
    rw [e, if_pos hs]
  · rw [if_neg hneg]
    obtain ⟨hne, hall⟩ := isJsonIntBody_digits _ hb
    generalize hd : decimal s.natAbs = ds at hb hval hne hall
    cases ds with
    | nil => exact absurd rfl hne
    | cons c rest =>
      have hc : isDigit c = true := by
        simp only [List.all_cons, Bool.and_eq_true] at hall
        exact hall.1
      have h45 : c ≠ 45 := (digit_ne c hc).2.2.2.1
      simp only [if_neg h45, hb, if_true, hval]
      have e : ((s.natAbs : Nat) : Int) = s := by omega
      rw [e, if_pos hs]

theorem marshalJSON_decimal_witness :
    IsInt64 (-9223372036854775808) ∧
      jsonInt64Literal? (Seconds.MarshalJSON (-9223372036854775808)).1 =
        some (-9223372036854775808) :=
  ⟨by decide, (marshalJSON_decimal (-9223372036854775808) (by decide)).2.2.2.2.1⟩

/-- C11: for every `Seconds` value `s` and every attribute-value record,
`MarshalDynamoDBAttributeValue` returns no error, sets the field `N` to the
decimal string of `s` (a `-` for a negative number, then the decimal digits
of `|s|`) and leaves every other field of the record as it was; encoding 123
into an empty record gives the record whose only set field is `N = "123"`. -/
theorem marshalDynamoDB_sets_N (s : Int) (hs : IsInt64 s)
    (b : Bytes) (bool : Option Bool) (bs : List Bytes) (l : List (Option AttributeValue))
    (m : List (Bytes × Option AttributeValue)) (n : Option Bytes) (ns : List (Option Bytes))
    (null : Option Bool) (st : Option Bytes) (ss : List (Option Bytes)) :
    Seconds.MarshalDynamoDBAttributeValue s
        (some (AttributeValue.mk b bool bs l m n ns null st ss)) =
      some (AttributeValue.mk b bool bs l m
        (some (if s < 0 then 45 :: decimal s.natAbs else decimal s.natAbs)) ns null st ss,
        none) ∧
      Seconds.MarshalDynamoDBAttributeValue 123 (some AttributeValue.empty) =
        some (AttributeValue.ofN (ascii "123"), none) := by
  refine ⟨?_, rfl⟩
  unfold Seconds.MarshalDynamoDBAttributeValue Seconds.Int64
  simp only [AttributeValue.setN, FormatInt_eq hs]

theorem marshalDynamoDB_sets_N_witness :
    IsInt64 (-45) ∧
      Seconds.MarshalDynamoDBAttributeValue (-45)
          (some (AttributeValue.mk [1] (some true) [] [] [] (some (ascii "7")) [] none
            (some (ascii "x")) [])) =
        some (AttributeValue.mk [1] (some true) [] [] []
          (some (if (-45 : Int) < 0 then 45 :: decimal (Int.natAbs (-45))
            else decimal (Int.natAbs (-45)))) [] none (some (ascii "x")) [], none) :=
  ⟨by decide,
    (marshalDynamoDB_sets_N (-45) (by decide) [1] (some true) [] [] [] (some (ascii "7")) [] none
      (some (ascii "x")) []).1⟩

/-- C12: `Now()` is `From` applied to the reading of the clock, and for any
two readings `t1 ≤ t2` at most one second apart, `From(t2) - From(t1)`,
computed as Go computes it on `Seconds` (in 64-bit wrap-around arithmetic),
is 0 or 1. `From` is monotone in that arithmetic: the difference is not
negative for any `t1 ≤ t2` less than `2^63 - 1` seconds apart. When the
seconds of both readings fit `int64` the same holds of the plain integers:
`From(t1) ≤ From(t2)`, and readings within a second differ by at most 1. -/
theorem from_monotone (t1 t2 : Time) (h1n : t1.nsec < 1000000000) (h2n : t2.nsec < 1000000000)
    (hle : nanosSinceEpoch t1 ≤ nanosSinceEpoch t2) :
    Now t1 = From t1 ∧ Now t2 = From t2 ∧
      (nanosSinceEpoch t2 ≤ nanosSinceEpoch t1 + 1000000000 →
        0 ≤ wrapInt64 (From t2 - From t1) ∧ wrapInt64 (From t2 - From t1) ≤ 1) ∧
      (nanosSinceEpoch t2 - nanosSinceEpoch t1 < 9223372036854775807 * 1000000000 →
        0 ≤ wrapInt64 (From t2 - From t1)) ∧
      (IsInt64 (t1.sec + internalToUnix) → IsInt64 (t2.sec + internalToUnix) →
        From t1 ≤ From t2 ∧
          (nanosSinceEpoch t2 ≤ nanosSinceEpoch t1 + 1000000000 →
            From t2 - From t1 ≤ 1)) := by
  have hF1 : From t1 = wrapInt64 (t1.sec + internalToUnix) := rfl
  have hF2 : From t2 = wrapInt64 (t2.sec + internalToUnix) := rfl
  unfold nanosSinceEpoch at hle ⊢
  refine ⟨rfl, rfl, ?_, ?_, ?_⟩
  · intro hc
    rw [hF1, hF2]
    generalize t1.sec + internalToUnix = a at *
    generalize t2.sec + internalToUnix = b at *
    have hd : b - a = 0 ∨ b - a = 1 := by omega
    have h : (0 : Int) ≤ wrapInt64 (wrapInt64 b - wrapInt64 a) ∧
        wrapInt64 (wrapInt64 b - wrapInt64 a) ≤ (1 : Int) := by
      unfold wrapInt64
      omega
    exact h
  · intro hc
    rw [hF1, hF2]
    generalize t1.sec + internalToUnix = a at *
    generalize t2.sec + internalToUnix = b at *
    have hd : 0 ≤ b - a ∧ b - a < 9223372036854775808 := by omega
    have h : (0 : Int) ≤ wrapInt64 (wrapInt64 b - wrapInt64 a) := by
      unfold wrapInt64
      omega
    exact h
  · intro r1 r2
    rw [hF1, hF2, wrapInt64_of_isInt64 r1, wrapInt64_of_isInt64 r2]
    generalize t1.sec + internalToUnix = a at *
    generalize t2.sec + internalToUnix = b at *
    have h : a ≤ b ∧ ((b * 1000000000 + (t2.nsec : Int) ≤ a * 1000000000 + (t1.nsec : Int) +
        1000000000) → b - a ≤ (1 : Int)) := by
      constructor
      · omega
      · intro hc; omega
    exact h

theorem from_monotone_witness :
    ((timeUnix 9223372036854775807 0).setLoc Location.UTC).nsec < 1000000000 ∧
      ((timeUnix (-9223372036854775808) 0).setLoc Location.UTC).nsec < 1000000000 ∧
      nanosSinceEpoch ((timeUnix 9223372036854775807 0).setLoc Location.UTC) ≤
        nanosSinceEpoch ((timeUnix (-9223372036854775808) 0).setLoc Location.UTC) ∧
      nanosSinceEpoch ((timeUnix (-9223372036854775808) 0).setLoc Location.UTC) ≤
        nanosSinceEpoch ((timeUnix 9223372036854775807 0).setLoc Location.UTC) + 1000000000 ∧
      0 ≤ wrapInt64 (From ((timeUnix (-9223372036854775808) 0).setLoc Location.UTC) -
        From ((timeUnix 9223372036854775807 0).setLoc Location.UTC)) ∧
      wrapInt64 (From ((timeUnix (-9223372036854775808) 0).setLoc Location.UTC) -
        From ((timeUnix 9223372036854775807 0).setLoc Location.UTC)) ≤ 1 :=
  ⟨by decide, by decide, by decide, by decide,
    (from_monotone ((timeUnix 9223372036854775807 0).setLoc Location.UTC)
      ((timeUnix (-9223372036854775808) 0).setLoc Location.UTC) (by decide) (by decide)
      (by decide)).2.2.1 (by decide)⟩

/-- C13: for every timestamp `t` with a zero sub-second component and every
location `loc`, `From(t).TimeInLocation(loc)` returns the timestamp that is
the instant of `t`, exactly `From(t)` seconds after the epoch, with
nanosecond component 0 and location `loc`; it is `t` itself, field by field,
when `t` carries no monotonic clock reading (its `wall` word is 0) and is
expressed in `loc` (`t.In(loc)` is `t`). For every `s`, `s.Time()` is
`s.TimeInLocation(Local)`. -/
theorem timeInLocation_from (t : Time) (loc : Location) (hn : t.nsec = 0)
    (he : IsInt64 t.ext) :
    (∃ r, Seconds.TimeInLocation (From t) (some loc) = some r ∧
        nanosSinceEpoch r = nanosSinceEpoch t ∧
        (IsInt64 (t.sec + internalToUnix) → nanosSinceEpoch r = From t * 1000000000) ∧
        r.nsec = 0 ∧ r.Location = loc ∧
        (t.wall = 0 → t.In (some loc) = some t → r = t)) ∧
      ∀ s : Int, Seconds.Time s = Seconds.TimeInLocation s (some Location.Local) := by
  have hF : From t = wrapInt64 (t.sec + internalToUnix) := rfl
  have hsec : wrapInt64 (wrapInt64 (t.sec + internalToUnix) + unixToInternal) = t.sec := by
    have hs := isInt64_sec t he
    rw [unixToInternal_eq, internalToUnix_eq]
    unfold IsInt64 minInt64 maxInt64 at hs
    unfold wrapInt64
    omega
  have h0 : (0 : Nat) &&& hasMonotonic = 0 := by decide
  have hrsec : ((timeUnix (From t) 0).setLoc loc).sec = t.sec := by
    rw [setLoc_sec, timeUnix_zero_nsec, hF]
    simp only [Time.sec, h0, ne_eq, not_true_eq_false, if_false]
    exact hsec
  have hrnsec : ((timeUnix (From t) 0).setLoc loc).nsec = 0 := by
    rw [setLoc_nsec, timeUnix_zero_nsec]
    show (0 : Nat) &&& nsecMask = 0
    decide
  refine ⟨⟨(timeUnix (From t) 0).setLoc loc, rfl, ?_, ?_, hrnsec, setLoc_Location _ _, ?_⟩,
    fun _ => rfl⟩
  · unfold nanosSinceEpoch
    rw [hrsec, hrnsec, hn]
  · intro hr
    unfold nanosSinceEpoch
    rw [hrsec, hrnsec, hF, wrapInt64_of_isInt64 hr]
    simp
  · intro hw hin
    have hext : t.sec = t.ext := by
      unfold Time.sec
      rw [hw]
      simp [h0]
    simp only [Time.In, Option.some.injEq] at hin
    have e : (timeUnix (From t) 0).setLoc loc = t.setLoc loc := by
      rw [timeUnix_zero_nsec, hF, hsec, hext]
      unfold Time.setLoc Time.stripMono
      simp only [hw, h0, ne_eq, not_true_eq_false, if_false]
    exact e.trans hin

theorem timeInLocation_from_witness :
    (timeUnix 1604500000 0).nsec = 0 ∧ IsInt64 (timeUnix 1604500000 0).ext ∧
      (timeUnix 1604500000 0).In (some Location.Local) = some (timeUnix 1604500000 0) ∧
      ∃ r, Seconds.TimeInLocation (From (timeUnix 1604500000 0)) (some Location.Local) =
          some r ∧
        nanosSinceEpoch r = nanosSinceEpoch (timeUnix 1604500000 0) ∧
        (IsInt64 ((timeUnix 1604500000 0).sec + internalToUnix) →
          nanosSinceEpoch r = From (timeUnix 1604500000 0) * 1000000000) ∧
        r.nsec = 0 ∧ r.Location = Location.Local ∧
        ((timeUnix 1604500000 0).wall = 0 →
          (timeUnix 1604500000 0).In (some Location.Local) = some (timeUnix 1604500000 0) →
          r = timeUnix 1604500000 0) :=
  ⟨by decide, by decide, by decide,
    (timeInLocation_from (timeUnix 1604500000 0) Location.Local (by decide) (by decide)).1⟩

/-- C14: for every 64-bit signed integer `v`, `Seconds(v).Int64()` is `v`, a
64-bit signed integer again, and for every `Seconds` value `s`,
`Seconds(s.Int64())` is `s`: `Int64` is the identity projection and has no
failure case. -/
theorem int64_identity (v : Int) :
    Seconds.Int64 v = v ∧ (IsInt64 v → IsInt64 (Seconds.Int64 v)) ∧
      Seconds.Int64 123 = 123 :=
  ⟨rfl, fun h => h, rfl⟩

/-- C15: decode atomicity. For every prior receiver value `s0` and every
input, whenever `UnmarshalJSON` or `UnmarshalDynamoDBAttributeValue` returns
an error the receiver still equals `s0`. -/
theorem decode_atomic (s0 : Int) :
    (∀ (data : Bytes) (s1 : Int) (e : GoError),
        Seconds.UnmarshalJSON s0 data = some (s1, some e) → s1 = s0) ∧
      (∀ (av : Option AttributeValue) (s1 : Int) (e : GoError),
        Seconds.UnmarshalDynamoDBAttributeValue s0 av = (s1, some e) → s1 = s0) := by
  constructor
  · intro data s1 e h
    unfold Seconds.UnmarshalJSON at h
    cases hj : jsonUnmarshalInt64 data 0 with
    | none => rw [hj] at h; exact Option.noConfusion h
    | some r =>
      obtain ⟨i, err⟩ := r
      rw [hj] at h
      simp only at h
      cases err with
      | none => simp at h
      | some e1 =>
        simp only [Option.isSome_some, if_true, Option.some.injEq, Prod.mk.injEq] at h
        exact h.1.symm
  · intro av s1 e h
    unfold Seconds.UnmarshalDynamoDBAttributeValue at h
    cases av with
    | none => simp at h
    | some a =>
      simp only at h
      cases hn : a.N with
      | none => rw [hn] at h; simp at h
      | some n =>
        rw [hn] at h
        simp only at h
        cases hp : (ParseInt n).2 with
        | none => rw [hp] at h; simp at h
        | some e1 =>
          rw [hp] at h
          simp only [Prod.mk.injEq] at h
          exact h.1.symm

theorem decode_atomic_witness :
    Seconds.UnmarshalJSON 7 (ascii "12x") =
        some (7, some (GoError.jsonSyntaxError ⟨some 120, "after top-level value", 3⟩)) ∧
      Seconds.UnmarshalDynamoDBAttributeValue 7 (some (AttributeValue.ofN (ascii "12x"))) =
        (7, some (GoError.numError ⟨"ParseInt", ascii "12x", StrconvErr.ErrSyntax⟩)) ∧
      (∀ s1 e, Seconds.UnmarshalJSON 7 (ascii "12x") = some (s1, some e) → s1 = 7) :=
  ⟨by decide, by decide, fun s1 e h => (decode_atomic 7).1 (ascii "12x") s1 e h⟩

/-- C16: `Add` is undone by the negated duration. For every `Seconds` value
`s` and every duration `d` other than the minimum `int64` (`-2^63` ns),
`s.Add(d).Add(-d) = s`, also when the intermediate sum wraps around in 64-bit
arithmetic. -/
theorem add_neg_cancels (s d : Int) (hs : IsInt64 s) (hd : IsInt64 d) (hmin : d ≠ minInt64) :
    wrapInt64 (-d) = -d ∧ Seconds.Add (Seconds.Add s d) (wrapInt64 (-d)) = s := by
  unfold IsInt64 minInt64 maxInt64 at hs hd
  unfold minInt64 at hmin
  have hneg : wrapInt64 (-d) = -d := by
    unfold wrapInt64
    omega
  refine ⟨hneg, ?_⟩
  rw [hneg]
  show ((wrapInt64 (wrapInt64 (s + d.tdiv 1000000000) + (-d).tdiv 1000000000) : Int) = (s : Int))
  rw [Int.neg_tdiv]
  generalize d.tdiv 1000000000 = q
  unfold wrapInt64
  omega

theorem add_neg_cancels_witness :
    IsInt64 9223372036854775807 ∧ IsInt64 5000000000 ∧ (5000000000 : Int) ≠ minInt64 ∧
      Seconds.Add 9223372036854775807 5000000000 = -9223372036854775804 ∧
      Seconds.Add (Seconds.Add 9223372036854775807 5000000000) (wrapInt64 (-5000000000)) =
        9223372036854775807 :=
  ⟨by decide, by decide, by decide, by decide,
    (add_neg_cancels 9223372036854775807 5000000000 (by decide) (by decide) (by decide)).2⟩

/-- C17: splitting a duration loses at most one second. For every `Seconds`
value `s` and all durations `d1`, `d2` whose sum does not overflow `int64`,
`s.Add(d1).Add(d2)` is `s.Add(d1+d2)` plus `-1`, `0` or `1` in 64-bit
arithmetic, so the two differ by at most 1 as integers when the `Seconds`
sums do not overflow; they are equal whenever `d1` and `d2` are both whole
numbers of seconds; and for `d1 = d2 = 500ms` they differ by exactly 1. -/
theorem add_split (s d1 d2 : Int) (h1 : IsInt64 d1) (h2 : IsInt64 d2)
    (h12 : IsInt64 (d1 + d2)) :
    (∃ k : Int, -1 ≤ k ∧ k ≤ 1 ∧
        Seconds.Add (Seconds.Add s d1) d2 = wrapInt64 (Seconds.Add s (d1 + d2) + k)) ∧
      (IsInt64 (s + d1.tdiv 1000000000) → IsInt64 (s + d1.tdiv 1000000000 + d2.tdiv 1000000000) →
        IsInt64 (s + (d1 + d2).tdiv 1000000000) →
        -1 ≤ Seconds.Add (Seconds.Add s d1) d2 - Seconds.Add s (d1 + d2) ∧
          Seconds.Add (Seconds.Add s d1) d2 - Seconds.Add s (d1 + d2) ≤ 1) ∧
      (d1 % 1000000000 = 0 → d2 % 1000000000 = 0 →
        Seconds.Add (Seconds.Add s d1) d2 = Seconds.Add s (d1 + d2)) ∧
      Seconds.Add (Seconds.Add 0 500000000) 500000000 = 0 ∧
      Seconds.Add 0 (500000000 + 500000000) = 1 := by
  unfold IsInt64 minInt64 maxInt64 at h1 h2 h12
  have e1 := tdiv_second d1
  have e2 := tdiv_second d2
  have e12 := tdiv_second (d1 + d2)
  have hA : Seconds.Add (Seconds.Add s d1) d2 =
      wrapInt64 (wrapInt64 (s + d1.tdiv 1000000000) + d2.tdiv 1000000000) := rfl
  have hB : Seconds.Add s (d1 + d2) = wrapInt64 (s + (d1 + d2).tdiv 1000000000) := rfl
  rw [hA, hB]
  generalize d1.tdiv 1000000000 = q1 at e1 ⊢
  generalize d2.tdiv 1000000000 = q2 at e2 ⊢
  generalize (d1 + d2).tdiv 1000000000 = q at e12 ⊢
  have hk : -1 ≤ q1 + q2 - q ∧ q1 + q2 - q ≤ 1 := by
    split at e1 <;> split at e2 <;> split at e12 <;> omega
  have x0 : (wrapInt64 (wrapInt64 (s + q1) + q2) : Int) =
      wrapInt64 (wrapInt64 (s + q) + (q1 + q2 - q)) := by
    unfold wrapInt64
    omega
  refine ⟨⟨q1 + q2 - q, hk.1, hk.2, x0⟩, ?_, ?_, by decide, by decide⟩
  · intro a1 a2 a3
    unfold IsInt64 minInt64 maxInt64 at a1 a2 a3
    have x1 : (wrapInt64 (wrapInt64 (s + q1) + q2) : Int) = s + q1 + q2 := by
      unfold wrapInt64; omega
    have x2 : (wrapInt64 (s + q) : Int) = s + q := by
      unfold wrapInt64; omega
    have x3 : -1 ≤ (s + q1 + q2) - (s + q) ∧ (s + q1 + q2) - (s + q) ≤ (1 : Int) := by omega
    rw [x1, x2]
    exact x3
  · intro m1 m2
    have hq : q1 + q2 = q := by
      split at e1 <;> split at e2 <;> split at e12 <;> omega
    have x4 : (wrapInt64 (wrapInt64 (s + q1) + q2) : Int) = wrapInt64 (s + (q1 + q2)) := by
      unfold wrapInt64
      omega
    rw [← hq]
    exact x4

theorem add_split_witness :
    IsInt64 (-1500000000) ∧ IsInt64 700000000 ∧
      IsInt64 (-1500000000 + 700000000) ∧
      ∃ k : Int, -1 ≤ k ∧ k ≤ 1 ∧
        Seconds.Add (Seconds.Add 123 (-1500000000)) 700000000 =
          wrapInt64 (Seconds.Add 123 (-1500000000 + 700000000) + k) :=
  ⟨by decide, by decide, by decide,
    (add_split 123 (-1500000000) 700000000 (by decide) (by decide) (by decide)).1⟩

end Epoch
